import Mathlib

/-!
Verification of the flattening/header-ordering engine of
`find-a-grant-applications-to-csv`.

The Python sources embedded here are `src/find_a_grant_csv/csv_utils.py`
(sanitize_col, try_json_cell, flatten, build_header_name,
section_separator_header, extract_row, drop_constant_columns,
coerce_to_pairs) and the header-aggregation loop of
`src/find_a_grant_csv/cli.py` (run_pipeline, lines 75-104).

Modelling conventions:
* JSON values are the inductive `Json` below; Python floats are omitted
  (no claim involves them) and Python `bool`'s `isinstance(…, int)`
  quirks are modelled explicitly where they matter.
* Python `dict` is an insertion-ordered association list
  `List (String × Json)` with update-in-place assignment (`setKV`),
  exactly the observable behaviour of CPython dicts.
* Regex character classes `\s` and `[^A-Za-z0-9]` are modelled over the
  ASCII range (`isPySpaceChar`, `isAlnumChar`).  Python's `\s`/`str.strip`
  additionally match some non-ASCII unicode whitespace; both sanitizer
  stages use the same class, so the structure (and every claim below) is
  unaffected.
* Code paths on which CPython would raise `TypeError`/`AttributeError`
  because a value has an unexpected runtime type (e.g. a non-dict section
  object, a truthy non-list `sections` value) are modelled as the
  neutral element (empty dict / empty list) unless a claim is about the
  error itself; `coerce_to_pairs`, whose error behaviour claims C7/C10
  are about, models those errors faithfully via `Except`.
-/

/-- A JSON value as decoded by Python's `json` module (floats omitted). -/
inductive Json where
  | null : Json
  | bool (b : Bool) : Json
  | int (n : Int) : Json
  | str (s : String) : Json
  | arr (elems : List Json) : Json
  | obj (entries : List (String × Json)) : Json

mutual

/-- Structural equality of JSON values (Python `==` restricted to
values of identical shape; Python's cross-type `True == 1` is not
modelled — no pipeline cell mixes bools and ints). -/
def jeq : Json → Json → Bool
  | .null, .null => true
  | .bool a, .bool b => a == b
  | .int a, .int b => a == b
  | .str a, .str b => a == b
  | .arr xs, .arr ys => jeqL xs ys
  | .obj xs, .obj ys => jeqO xs ys
  | _, _ => false

def jeqL : List Json → List Json → Bool
  | [], [] => true
  | x :: xs, y :: ys => jeq x y && jeqL xs ys
  | _, _ => false

def jeqO : List (String × Json) → List (String × Json) → Bool
  | [], [] => true
  | (k, v) :: xs, (l, w) :: ys => k == l && jeq v w && jeqO xs ys
  | _, _ => false

end

mutual

theorem jeq_eq : ∀ a b : Json, jeq a b = true ↔ a = b
  | .null, .null => by simp [jeq]
  | .bool _, .bool _ => by simp [jeq]
  | .int _, .int _ => by simp [jeq]
  | .str _, .str _ => by simp [jeq]
  | .arr xs, .arr ys => by simp [jeq, jeqL_eq xs ys]
  | .obj xs, .obj ys => by simp [jeq, jeqO_eq xs ys]
  | .null, .bool _ | .null, .int _ | .null, .str _ | .null, .arr _ | .null, .obj _ => by simp [jeq]
  | .bool _, .null | .bool _, .int _ | .bool _, .str _ | .bool _, .arr _ | .bool _, .obj _ => by simp [jeq]
  | .int _, .null | .int _, .bool _ | .int _, .str _ | .int _, .arr _ | .int _, .obj _ => by simp [jeq]
  | .str _, .null | .str _, .bool _ | .str _, .int _ | .str _, .arr _ | .str _, .obj _ => by simp [jeq]
  | .arr _, .null | .arr _, .bool _ | .arr _, .int _ | .arr _, .str _ | .arr _, .obj _ => by simp [jeq]
  | .obj _, .null | .obj _, .bool _ | .obj _, .int _ | .obj _, .str _ | .obj _, .arr _ => by simp [jeq]

theorem jeqL_eq : ∀ a b : List Json, jeqL a b = true ↔ a = b
  | [], [] => by simp [jeqL]
  | [], _ :: _ => by simp [jeqL]
  | _ :: _, [] => by simp [jeqL]
  | x :: xs, y :: ys => by simp [jeqL, jeq_eq x y, jeqL_eq xs ys]

theorem jeqO_eq : ∀ a b : List (String × Json), jeqO a b = true ↔ a = b
  | [], [] => by simp [jeqO]
  | [], _ :: _ => by simp [jeqO]
  | _ :: _, [] => by simp [jeqO]
  | (k, v) :: xs, (l, w) :: ys => by
      simp [jeqO, jeq_eq v w, jeqO_eq xs ys, Prod.ext_iff, and_assoc]

end

instance : DecidableEq Json := fun a b => decidable_of_iff (jeq a b = true) (jeq_eq a b)

/-! ## Column sanitizer (`csv_utils.sanitize_col`, lines 79-82)

```python
def sanitize_col(name: str) -> str:
    name = re.sub(r"\s+", " ", str(name)).strip()
    name = re.sub(r"[^A-Za-z0-9]+", "_", name)
    return name.strip("_") or "unnamed"
```
-/

/-- The regex class `[A-Za-z0-9]`. -/
def isAlnumChar (c : Char) : Bool :=
  (65 ≤ c.toNat && c.toNat ≤ 90) || (97 ≤ c.toNat && c.toNat ≤ 122) ||
    (48 ≤ c.toNat && c.toNat ≤ 57)

/-- The regex class `\s` over ASCII: space, tab, newline, vertical tab,
form feed, carriage return. -/
def isPySpaceChar (c : Char) : Bool :=
  c.toNat = 32 || c.toNat = 9 || c.toNat = 10 || c.toNat = 11 ||
    c.toNat = 12 || c.toNat = 13

/-- One pass of `re.sub(r"\s+", " ", ·)`: every maximal whitespace run
becomes a single space.  The flag records whether we are inside a run. -/
def collapseWs : Bool → List Char → List Char
  | _, [] => []
  | inRun, c :: cs =>
    if isPySpaceChar c then
      if inRun then collapseWs true cs else ' ' :: collapseWs true cs
    else c :: collapseWs false cs

/-- Strip characters satisfying `p` from both ends (Python `str.strip`). -/
def stripList (p : Char → Bool) (l : List Char) : List Char :=
  ((l.dropWhile p).reverse.dropWhile p).reverse

/-- One pass of `re.sub(r"[^A-Za-z0-9]+", "_", ·)`: every maximal run of
non-alphanumeric characters becomes a single underscore. -/
def underscore : Bool → List Char → List Char
  | _, [] => []
  | inRun, c :: cs =>
    if isAlnumChar c then c :: underscore false cs
    else if inRun then underscore true cs
    else '_' :: underscore true cs

def sanitize_col (name : String) : String :=
  let s1 := stripList isPySpaceChar (collapseWs false name.toList)
  let s2 := stripList (fun c => c == '_') (underscore false s1)
  if s2.isEmpty then "unnamed" else String.mk s2

/-- Python `str.strip()` (ASCII whitespace, see `isPySpaceChar`). -/
def pyStrip (s : String) : String :=
  String.mk (stripList isPySpaceChar s.toList)

/-! ## Cell stringification

`dumps` models `json.dumps(obj, ensure_ascii=False)` with its default
separators; `pyRepr`/`pyStr` model Python `repr`/`str` on cell values
(`str` is applied to cells by `drop_constant_columns`'s blankness test;
Python's choice of quote character in `repr` of strings containing
quotes is not modelled — it only feeds a blankness test, and a quoted
string is never blank). -/

/-- JSON string escaping used by `json.dumps` (ensure_ascii=False). -/
def jsonEscapeChar (c : Char) : List Char :=
  if c = '"' then ['\\', '"']
  else if c = '\\' then ['\\', '\\']
  else if c = '\n' then ['\\', 'n']
  else if c = '\t' then ['\\', 't']
  else if c = '\r' then ['\\', 'r']
  else if c.toNat = 8 then ['\\', 'b']
  else if c.toNat = 12 then ['\\', 'f']
  else if c.toNat < 32 then
    ['\\', 'u', '0', '0',
      (Nat.digitChar (c.toNat / 16)), (Nat.digitChar (c.toNat % 16))]
  else [c]

def jsonQuote (s : String) : String :=
  String.mk ('"' :: (s.toList.foldr (fun c acc => jsonEscapeChar c ++ acc) ['"']))

mutual

/-- `json.dumps(v, ensure_ascii=False)` (default separators `", "`, `": "`). -/
def dumps : Json → String
  | .null => "null"
  | .bool b => if b then "true" else "false"
  | .int n => toString n
  | .str s => jsonQuote s
  | .arr xs => "[" ++ dumpsList xs ++ "]"
  | .obj kvs => "\x7b" ++ dumpsObj kvs ++ "\x7d"

def dumpsList : List Json → String
  | [] => ""
  | [x] => dumps x
  | x :: y :: r => dumps x ++ ", " ++ dumpsList (y :: r)

def dumpsObj : List (String × Json) → String
  | [] => ""
  | [(k, v)] => jsonQuote k ++ ": " ++ dumps v
  | (k, v) :: p :: r => jsonQuote k ++ ": " ++ dumps v ++ ", " ++ dumpsObj (p :: r)

end

mutual

/-- Python `repr` of a decoded-JSON value. -/
def pyRepr : Json → String
  | .null => "None"
  | .bool b => if b then "True" else "False"
  | .int n => toString n
  | .str s => "'" ++ s ++ "'"
  | .arr xs => "[" ++ pyReprList xs ++ "]"
  | .obj kvs => "\x7b" ++ pyReprObj kvs ++ "\x7d"

def pyReprList : List Json → String
  | [] => ""
  | [x] => pyRepr x
  | x :: y :: r => pyRepr x ++ ", " ++ pyReprList (y :: r)

def pyReprObj : List (String × Json) → String
  | [] => ""
  | [(k, v)] => "'" ++ k ++ "': " ++ pyRepr v
  | (k, v) :: p :: r => "'" ++ k ++ "': " ++ pyRepr v ++ ", " ++ pyReprObj (p :: r)

end

/-- Python `str` of a decoded-JSON value. -/
def pyStr : Json → String
  | .str s => s
  | .null => "None"
  | .bool b => if b then "True" else "False"
  | .int n => toString n
  | v => pyRepr v

/-! ## Python-dict operations

A Python dict is an insertion-ordered association list with unique keys;
assignment to an existing key updates it in place, assignment to a fresh
key appends. -/

abbrev Dict := List (String × Json)

/-- `d[k]` / `d.get(k)`: the value stored under `k`, if any. -/
def getKey (d : Dict) (k : String) : Option Json :=
  (d.find? (fun p => p.1 == k)).map (fun p => p.2)

/-- `k in d`. -/
def hasKey (d : Dict) (k : String) : Bool :=
  d.any (fun p => p.1 == k)

/-- `d[k] = v`. -/
def setKV (d : Dict) (k : String) (v : Json) : Dict :=
  if hasKey d k then d.map (fun p => if p.1 == k then (k, v) else p)
  else d ++ [(k, v)]

/-- `d.setdefault(k, v)`. -/
def setdefault (d : Dict) (k : String) (v : Json) : Dict :=
  if hasKey d k then d else d ++ [(k, v)]

/-- `d.update(new)`: assign each binding of `new` into `d` in order. -/
def updateAll (d new : Dict) : Dict :=
  new.foldl (fun acc p => setKV acc p.1 p.2) d

/-- Python dict comprehension `{k: f(v) for k, v in d.items()}`. -/
def mapValues (f : Json → Json) (d : Dict) : Dict :=
  d.map (fun p => (p.1, f p.2))

/-- Python truthiness of a decoded-JSON value. -/
def truthy : Json → Bool
  | .null => false
  | .bool b => b
  | .int n => n != 0
  | .str s => !s.isEmpty
  | .arr xs => !xs.isEmpty
  | .obj kvs => !kvs.isEmpty

/-! ## Response flattener (`csv_utils.flatten`, lines 95-113)

```python
def flatten(prefix: str, value: Any) -> Dict[str, Any]:
    out: Dict[str, Any] = {}
    if isinstance(value, dict):
        for k, v in value.items():
            col = sanitize_col(f"{prefix}_{k}")
            if isinstance(v, (dict, list)):
                out.update(flatten(col, v))
            else:
                out[col] = v
    elif isinstance(value, list):
        if all(isinstance(x, (str, int, float, type(None))) for x in value):
            out[sanitize_col(prefix)] = " | ".join(
                "" if x is None else str(x) for x in value
            )
        else:
            out[sanitize_col(prefix)] = json.dumps(value, ensure_ascii=False)
    else:
        out[sanitize_col(prefix)] = value
    return out
```
-/

/-- `isinstance(v, (dict, list))`.  Its complement is exactly
`isinstance(v, (str, int, float, type(None)))` for decoded JSON values
(Python bools pass that check because `bool` subclasses `int`). -/
def isContainer : Json → Bool
  | .arr _ | .obj _ => true
  | _ => false

/-- One element of the `" | ".join("" if x is None else str(x) …)` cell. -/
def joinCell (x : Json) : String :=
  if x = Json.null then "" else pyStr x

/-- The joined single cell for an all-scalar list. -/
def joinScalars (xs : List Json) : String :=
  String.intercalate " | " (xs.map joinCell)

mutual

def flatten (pre : String) : Json → Dict
  | .obj kvs => flattenObj pre kvs []
  | .arr xs =>
      if xs.all (fun x => !isContainer x) then
        [(sanitize_col pre, .str (joinScalars xs))]
      else
        [(sanitize_col pre, .str (dumps (.arr xs)))]
  | v => [(sanitize_col pre, v)]

/-- The `for k, v in value.items()` loop of `flatten`, with `out` as
accumulator (`out.update(flatten(col, v))` assigns the recursive
result's bindings one by one, in order). -/
def flattenObj (pre : String) : List (String × Json) → Dict → Dict
  | [], out => out
  | (k, v) :: rest, out =>
      let col := sanitize_col (pre ++ "_" ++ k)
      let out' := if isContainer v then updateAll out (flatten col v)
                  else setKV out col v
      flattenObj pre rest out'

end

/-! ## Cell coercer (`csv_utils.try_json_cell`, lines 85-92) -/

/-- `try_json_cell`: None to empty string; str/int (and bool, a Python
int subclass) unchanged; list/dict serialized to JSON text. -/
def try_json_cell : Json → Json
  | .null => .str ""
  | .str s => .str s
  | .int n => .int n
  | .bool b => .bool b
  | .arr xs => .str (dumps (.arr xs))
  | .obj kvs => .str (dumps (.obj kvs))

/-! ## Header names (`csv_utils.build_header_name`, lines 116-128, and
`csv_utils.section_separator_header`, lines 131-133)

Per its type annotation, `question_id: str | None`; Python truthiness of
a string is non-emptiness.  `section_title` reaching this function is
always a string (possibly empty). -/

/-- Truthiness of an optional string (`None` and `""` are falsy). -/
def strTruthy : Option String → Bool
  | some s => !s.isEmpty
  | none => false

def build_header_name (question_title : String) (question_id : Option String)
    (section_title : String) (include_qid prefix_section : Bool) : String :=
  let base0 := if !question_title.isEmpty then question_title
               else if strTruthy question_id then question_id.getD ""
               else "question"
  let base1 := sanitize_col base0
  let base2 := if prefix_section && !section_title.isEmpty then
                 sanitize_col section_title ++ "__" ++ base1
               else base1
  if include_qid && strTruthy question_id then
    base2 ++ "__" ++ sanitize_col (question_id.getD "")
  else base2

def section_separator_header (section_title : String) : String :=
  "Section: " ++ pyStrip (if section_title.isEmpty then "Untitled Section" else section_title)

/-! ## Row extractor (`csv_utils.extract_row`, lines 20-76)

Field access on submissions, sections and questions goes through the
helpers below; a JSON value that is not an object has no fields (in
CPython such a value would raise `AttributeError` — not modelled, see
the header comment). -/

/-- The entries of a JSON object (non-objects: none). -/
def asDict : Json → Dict
  | .obj kvs => kvs
  | _ => []

/-- `d.get(k) or ""` for a field whose value is a string or absent/null
(`sectionTitle`, `sectionId`, `questionTitle`). -/
def strField (d : Dict) (k : String) : String :=
  match getKey d k with
  | some (.str s) => s
  | _ => ""

/-- `d.get("questionId")` as `str | None` per the annotations. -/
def qidField (d : Dict) : Option String :=
  match getKey d "questionId" with
  | some (.str s) => some s
  | _ => none

/-- `d.get(k, []) or []` for a list-valued field (`sections`,
`questions`): absent, null or falsy values give the empty list. -/
def getList (d : Dict) (k : String) : List Json :=
  match getKey d k with
  | some (.arr xs) => xs
  | _ => []

/-- `sec.get("sectionTitle") or sec.get("sectionId") or ""`. -/
def sectionTitleOf (sec : Dict) : String :=
  let t := strField sec "sectionTitle"
  if !t.isEmpty then t else strField sec "sectionId"

/-- `sanitize_col(q_id) if q_id else 'dup'` — the disambiguation suffix
appended (after `"__"`) when a scalar response's column name collides. -/
def dupSuffix (q_id : Option String) : String :=
  if strTruthy q_id then sanitize_col (q_id.getD "") else "dup"

/-- State threaded through one section's question loop: the shared
`dynamic` dict and the section's `section_cols` list. -/
structure QState where
  dynamic : Dict
  cols : List String

/-- The body of `for q in sec.get("questions", []) or []`. -/
def processQuestion (include_qid prefix_section : Bool) (secTitle : String)
    (st : QState) (qJ : Json) : QState :=
  let q := asDict qJ
  let q_title := pyStrip (strField q "questionTitle")
  let q_id := qidField q
  let col := build_header_name q_title q_id secTitle include_qid prefix_section
  let resp := (getKey q "questionResponse").getD .null
  if isContainer resp then
    let flat := flatten col resp
    { dynamic := updateAll st.dynamic flat,
      cols := st.cols ++ flat.map (fun p => p.1) }
  else
    let col2 := if hasKey st.dynamic col && !include_qid then
                  col ++ "__" ++ dupSuffix q_id
                else col
    { dynamic := setKV st.dynamic col2 resp, cols := st.cols ++ [col2] }

/-- The body of `for sec in sections`, threading `dynamic` and `blocks`. -/
def processSection (include_qid prefix_section add_section_separators : Bool)
    (acc : Dict × List (String × List String)) (secJ : Json) :
    Dict × List (String × List String) :=
  let sec := asDict secJ
  let secTitle := sectionTitleOf sec
  let sepHeader := if add_section_separators then section_separator_header secTitle else ""
  let dyn0 := if !sepHeader.isEmpty then setdefault acc.1 sepHeader (.str "") else acc.1
  let st := (getList sec "questions").foldl
    (processQuestion include_qid prefix_section secTitle) ⟨dyn0, []⟩
  (st.dynamic, acc.2 ++ [(sepHeader, st.cols)])

def ROOT_META_CANDIDATES : List String :=
  ["applicationFormName", "applicationFormVersion", "applicationId",
   "ggisReferenceNumber", "grantAdminEmailAddress"]

def SUBMISSION_META_FIELDS : List String :=
  ["submissionId", "grantApplicantEmailAddress", "submittedTimeStamp", "gapId"]

/-- One `if k in src: meta[sanitize_col(k)] = src[k]` allow-list pass. -/
def metaPass (src : Dict) (keys : List String) (meta : Dict) : Dict :=
  keys.foldl
    (fun m k => if hasKey src k then setKV m (sanitize_col k) ((getKey src k).getD .null) else m)
    meta

/-- `extract_row(root_meta, sub, include_qid=…, prefix_section=…,
add_section_separators=…)`, returning `(meta, dynamic, blocks)`. -/
def extract_row (root_meta sub : Dict) (include_qid prefix_section add_section_separators : Bool) :
    Dict × Dict × List (String × List String) :=
  let meta := metaPass root_meta ROOT_META_CANDIDATES []
  let meta := metaPass sub SUBMISSION_META_FIELDS meta
  let meta := metaPass sub ROOT_META_CANDIDATES meta
  let sections := getList sub "sections"
  let dynBlocks := sections.foldl
    (processSection include_qid prefix_section add_section_separators) ([], [])
  (mapValues try_json_cell meta, mapValues try_json_cell dynBlocks.1, dynBlocks.2)

/-! ## Constant-column filter (`csv_utils.drop_constant_columns`, lines 136-159)

```python
def drop_constant_columns(rows, *, ignore_empty, keep_patterns):
    if not rows:
        return rows, []
    cols = list(rows[0].keys())
    remove = []
    def force_keep(c): return any(p.search(c) for p in keep_patterns)
    for c in cols:
        if force_keep(c): continue
        vals = [r.get(c, "") for r in rows]
        s = set(v for v in vals if str(v).strip() != "") if ignore_empty else set(vals)
        if len(s) <= 1:
            remove.append(c)
    if remove:
        rows = [{k: v for k, v in r.items() if k not in remove} for r in rows]
    return rows, remove
```

Compiled regex patterns are modelled as string predicates
(`re.Pattern.search` at the use sites); `set(...)` cardinality is the
length of the values list with duplicates removed. -/

def force_keep (keep_patterns : List (String → Bool)) (c : String) : Bool :=
  keep_patterns.any (fun p => p c)

/-- The distinct cell values of column `c` across `rows` (missing cells
default to `""`; with `ignore_empty`, blank cells are excluded first). -/
def distinctVals (rows : List Dict) (ignore_empty : Bool) (c : String) : List Json :=
  let vals := rows.map (fun r => (getKey r c).getD (.str ""))
  (if ignore_empty then vals.filter (fun v => !(pyStrip (pyStr v)).isEmpty) else vals).dedup

def drop_constant_columns (rows : List Dict) (ignore_empty : Bool)
    (keep_patterns : List (String → Bool)) : List Dict × List String :=
  match rows with
  | [] => (rows, [])
  | r0 :: _ =>
    let cols := r0.map (fun p => p.1)
    let remove := cols.filter (fun c =>
      !force_keep keep_patterns c && decide ((distinctVals rows ignore_empty c).length ≤ 1))
    let rows2 := if remove.isEmpty then rows
                 else rows.map (fun r => r.filter (fun p => !remove.contains p.1))
    (rows2, remove)

/-- The compiled pattern `re.compile(r"^Section:\s")` of
`cli.run_pipeline` (line 116), as the predicate `re.Pattern.search`
computes for it: the string starts with `Section:` followed by a
whitespace character. -/
def sectionKeepPat (c : String) : Bool :=
  match c.toList with
  | 'S' :: 'e' :: 'c' :: 't' :: 'i' :: 'o' :: 'n' :: ':' :: d :: _ => isPySpaceChar d
  | _ => false

/-! ## Shape coercion (`csv_utils.coerce_to_pairs`, lines 162-189)

```python
def coerce_to_pairs(data):
    pairs = []
    if isinstance(data, dict) and isinstance(data.get("applications"), list):
        for app in data["applications"]:
            root_meta = {k: v for k, v in app.items() if k != "submissions"}
            subs = app.get("submissions", []) or []
            for sub in subs:
                pairs.append((root_meta, sub))
    elif isinstance(data, dict) and isinstance(data.get("applications"), dict):
        app = data["applications"]
        ... (same body for the single app) ...
    elif isinstance(data, dict) and isinstance(data.get("submissions"), list):
        root_meta = {k: v for k, v in data.items() if k != "submissions"}
        for sub in data["submissions"]:
            pairs.append((root_meta, sub))
    elif isinstance(data, list):
        for sub in data:
            pairs.append(({}, sub))
    elif isinstance(data, dict) and any(k in data for k in ("submissionId", "sections")):
        pairs.append(({}, data))
    else:
        raise ValueError("Unrecognised JSON shape for submissions.")
    return pairs
```

Errors are modelled faithfully here: `unrecognised` is the explicit
`ValueError`; `attrError` is the `AttributeError` CPython raises when
`app.items()` is called on a non-dict; `typeError` is the `TypeError`
raised when `for sub in subs` iterates a truthy non-iterable.  Iterating
a dict yields its keys and iterating a string yields its characters,
exactly as in Python. -/

inductive CoerceErr where
  | unrecognised : CoerceErr
  | attrError : CoerceErr
  | typeError : CoerceErr
  deriving DecidableEq

/-- `app.items()` — raises `AttributeError` on a non-dict. -/
def itemsOf : Json → Except CoerceErr Dict
  | .obj kvs => .ok kvs
  | _ => .error .attrError

/-- `for sub in (x or [])`: falsy values iterate as empty, lists as
their elements, dicts as their keys, strings as their characters;
other truthy values raise `TypeError`. -/
def pyIterOrEmpty (x : Json) : Except CoerceErr (List Json) :=
  if !truthy x then .ok []
  else match x with
    | .arr xs => .ok xs
    | .obj kvs => .ok (kvs.map (fun p => .str p.1))
    | .str s => .ok (s.toList.map (fun c => .str (String.mk [c])))
    | _ => .error .typeError

/-- The shared per-application body of shapes 1 and 2. -/
def appPairs (app : Json) : Except CoerceErr (List (Dict × Json)) := do
  let items ← itemsOf app
  let root_meta := items.filter (fun p => p.1 != "submissions")
  let subs ← pyIterOrEmpty ((getKey items "submissions").getD (.arr []))
  pure (subs.map (fun sub => (root_meta, sub)))

/-- The `for app in data["applications"]` loop of shape 1. -/
def applicationsListPairs (apps : List Json) : Except CoerceErr (List (Dict × Json)) :=
  apps.foldlM (fun acc app => do
    let ps ← appPairs app
    pure (acc ++ ps)) []

def coerce_to_pairs (data : Json) : Except CoerceErr (List (Dict × Json)) :=
  match data with
  | .obj kvs =>
    match getKey kvs "applications" with
    | some (.arr apps) => applicationsListPairs apps
    | some (.obj appKvs) => appPairs (.obj appKvs)
    | _ =>
      match getKey kvs "submissions" with
      | some (.arr subs) =>
          .ok (subs.map (fun sub => (kvs.filter (fun p => p.1 != "submissions"), sub)))
      | _ =>
          if hasKey kvs "submissionId" || hasKey kvs "sections" then
            .ok [([], .obj kvs)]
          else .error .unrecognised
  | .arr subs => .ok (subs.map (fun sub => ([], sub)))
  | _ => .error .unrecognised

/-! The five recognized document shapes as the claim describes them
(used only to state claims C7/C10 and compared against
`coerce_to_pairs` above). -/

/-- Claim shape 1: a dict with an applications list. -/
def shapeAppsList (d : Json) : Bool :=
  match d with
  | .obj kvs => match getKey kvs "applications" with
    | some (.arr _) => true
    | _ => false
  | _ => false

/-- Claim shape 2: a dict with an applications object. -/
def shapeAppsObj (d : Json) : Bool :=
  match d with
  | .obj kvs => match getKey kvs "applications" with
    | some (.obj _) => true
    | _ => false
  | _ => false

/-- Claim shape 3: a dict with a top-level submissions list. -/
def shapeSubsList (d : Json) : Bool :=
  match d with
  | .obj kvs => match getKey kvs "submissions" with
    | some (.arr _) => true
    | _ => false
  | _ => false

/-- Claim shape 4: a bare sequence of submissions. -/
def shapeBareList (d : Json) : Bool :=
  match d with
  | .arr _ => true
  | _ => false

/-- Claim shape 5: a single submission object, detected by a
`submissionId` or `sections` key. -/
def shapeSingleSub (d : Json) : Bool :=
  match d with
  | .obj kvs => hasKey kvs "submissionId" || hasKey kvs "sections"
  | _ => false

/-! ## Header aggregation (`cli.run_pipeline`, lines 75-104)

```python
    meta_order = [sanitize_col(k) for k in ROOT_META_CANDIDATES] + [
        sanitize_col(k) for k in SUBMISSION_META_FIELDS
    ]
    seen_headers = set(meta_order)
    final_headers = list(dict.fromkeys(meta_order))
    cache = []
    all_cols_seen = set(final_headers)
    for root_meta, sub in pairs:
        meta, dyn, blocks = extract_row(root_meta, sub, include_qid=False,
            prefix_section=False, add_section_separators=True)
        cache.append((meta, dyn, blocks))
        all_cols_seen.update(meta.keys()); all_cols_seen.update(dyn.keys())
        for section_header, block_cols in blocks:
            if section_header and section_header not in seen_headers:
                final_headers.append(section_header); seen_headers.add(section_header)
            for col in block_cols:
                if col not in seen_headers:
                    final_headers.append(col); seen_headers.add(col)
    for c in all_cols_seen:
        if c not in seen_headers:
            final_headers.append(c); seen_headers.add(c)
```

`seen_headers` always holds exactly the elements of `final_headers`, so
it is modelled by list membership (`appendUnseen`).  `all_cols_seen` is
a Python set whose iteration order is unspecified; it is modelled as a
deterministic first-seen traversal (the trailing loop appends only
names not yet placed, so every claim below is independent of that
order). -/

/-- Append a name unless already present (`final_headers` +
`seen_headers` in one step). -/
def appendUnseen (hs : List String) (c : String) : List String :=
  if c ∈ hs then hs else hs ++ [c]

def META_ORDER : List String :=
  ROOT_META_CANDIDATES.map sanitize_col ++ SUBMISSION_META_FIELDS.map sanitize_col

/-- The `for section_header, block_cols in blocks` loop for one row. -/
def headerStep (hs : List String) (blocks : List (String × List String)) : List String :=
  blocks.foldl
    (fun acc b => b.2.foldl appendUnseen (if !b.1.isEmpty then appendUnseen acc b.1 else acc))
    hs

/-- `extract_row` with the options `run_pipeline` passes. -/
def pipelineExtract (pair : Dict × Dict) : Dict × Dict × List (String × List String) :=
  extract_row pair.1 pair.2 false false true

/-- `final_headers` after the `for root_meta, sub in pairs` loop. -/
def rowHeaders (pairs : List (Dict × Dict)) : List String :=
  (pairs.map pipelineExtract).foldl (fun hs e => headerStep hs e.2.2)
    (META_ORDER.foldl appendUnseen [])

/-- The contents of `all_cols_seen`, in deterministic first-seen order. -/
def allColsSeen (pairs : List (Dict × Dict)) : List String :=
  (pairs.map pipelineExtract).foldl
    (fun l e => l ++ e.1.map (fun p => p.1) ++ e.2.1.map (fun p => p.1))
    META_ORDER

/-- `final_headers` after the trailing `for c in all_cols_seen` loop:
the global header list `run_pipeline` hands to the CSV writer (before
the constant-column pass). -/
def aggregateHeaders (pairs : List (Dict × Dict)) : List String :=
  (allColsSeen pairs).foldl appendUnseen (rowHeaders pairs)

/-! ## Auxiliary predicates used to state claims -/

/-- No two adjacent underscores (the shape of `underscore`'s output,
needed for idempotence of the sanitizer). -/
def noDouble : List Char → Prop
  | [] => True
  | [_] => True
  | a :: b :: t => ¬(a = '_' ∧ b = '_') ∧ noDouble (b :: t)

mutual

/-- Modelled from the spec: the scalar (non-mapping, non-sequence)
leaves reachable inside a JSON value — the spec's "every scalar
reachable from `value`".  Used only to state claim C2. -/
def specScalarLeaves : Json → List Json
  | .obj kvs => specScalarLeavesO kvs
  | .arr xs => specScalarLeavesL xs
  | v => [v]

def specScalarLeavesL : List Json → List Json
  | [] => []
  | x :: r => specScalarLeaves x ++ specScalarLeavesL r

def specScalarLeavesO : List (String × Json) → List Json
  | [] => []
  | (_, v) :: r => specScalarLeaves v ++ specScalarLeavesO r

end

/-! # Lemmas

## Sanitizer: character sets and fixed points -/

theorem underscore_chars (l : List Char) : ∀ (b : Bool) (c : Char),
    c ∈ underscore b l → isAlnumChar c = true ∨ c = '_' := by
  induction l with
  | nil => intro b c h; simp [underscore] at h
  | cons a t ih =>
    intro b c h
    by_cases ha : isAlnumChar a
    · simp only [underscore, ha, if_true, List.mem_cons] at h
      rcases h with h | h
      · exact Or.inl (h ▸ ha)
      · exact ih false c h
    · cases b with
      | true => simp [underscore, ha] at h; exact ih true c h
      | false =>
        simp [underscore, ha] at h
        rcases h with h | h
        · exact Or.inr h
        · exact ih true c h

theorem san_not_space {c : Char} (h : isAlnumChar c = true ∨ c = '_') :
    isPySpaceChar c = false := by
  rcases h with h | h
  · simp only [isAlnumChar, Bool.or_eq_true, Bool.and_eq_true, decide_eq_true_eq] at h
    simp only [isPySpaceChar, Bool.or_eq_false_iff, decide_eq_false_iff_not]
    omega
  · subst h; decide

theorem san_not_colon {c : Char} (h : isAlnumChar c = true ∨ c = '_') : c ≠ ':' := by
  rintro rfl
  rcases h with h | h
  · exact absurd h (by decide)
  · exact absurd h (by decide)

theorem collapseWs_id (l : List Char) (hl : ∀ c ∈ l, isPySpaceChar c = false) :
    ∀ b, collapseWs b l = l := by
  induction l with
  | nil => intro b; rfl
  | cons a t ih =>
    intro b
    have ha : isPySpaceChar a = false := hl a (List.mem_cons_self a t)
    simp only [collapseWs, ha, Bool.false_eq_true, if_false]
    rw [ih (fun c hc => hl c (List.mem_cons_of_mem a hc)) false]

theorem dropWhile_all_false {p : Char → Bool} {l : List Char}
    (hl : ∀ c ∈ l, p c = false) : l.dropWhile p = l := by
  cases l with
  | nil => rfl
  | cons a t => simp [List.dropWhile_cons, hl a (List.mem_cons_self a t)]

theorem stripList_all_false {p : Char → Bool} {l : List Char}
    (hl : ∀ c ∈ l, p c = false) : stripList p l = l := by
  unfold stripList
  rw [dropWhile_all_false hl, dropWhile_all_false, List.reverse_reverse]
  intro c hc
  exact hl c (List.mem_reverse.mp hc)

theorem stripList_subset {p : Char → Bool} {l : List Char} : stripList p l ⊆ l := by
  unfold stripList
  intro c hc
  rw [List.mem_reverse] at hc
  have h1 := (List.dropWhile_suffix (l := (l.dropWhile p).reverse) p).subset hc
  rw [List.mem_reverse] at h1
  exact (List.dropWhile_suffix p).subset h1

theorem dropWhile_head_false {p : Char → Bool} {l : List Char} {a : Char}
    (h : (l.dropWhile p).head? = some a) : p a = false := by
  induction l with
  | nil => simp at h
  | cons x t ih =>
    rw [List.dropWhile_cons] at h
    by_cases hx : p x
    · rw [if_pos hx] at h; exact ih h
    · rw [if_neg hx] at h
      simp only [List.head?_cons, Option.some.injEq] at h
      subst h
      exact Bool.not_eq_true _ ▸ (by simpa using hx)

theorem dropWhile_idem {p : Char → Bool} (l : List Char) :
    (l.dropWhile p).dropWhile p = l.dropWhile p := by
  cases hd : l.dropWhile p with
  | nil => rfl
  | cons a t =>
    have ha : p a = false := dropWhile_head_false (by rw [hd]; rfl)
    simp [List.dropWhile_cons, ha]

theorem stripList_front {p : Char → Bool} (l : List Char) :
    stripList p l <+: l.dropWhile p := by
  unfold stripList
  have h1 : ((l.dropWhile p).reverse.dropWhile p) <:+ (l.dropWhile p).reverse :=
    List.dropWhile_suffix p
  have h2 := List.reverse_prefix.mpr h1
  rwa [List.reverse_reverse] at h2

theorem prefix_head_eq {l₁ l₂ : List Char} {a : Char} (h : l₁ <+: l₂)
    (ha : l₁.head? = some a) : l₂.head? = some a := by
  obtain ⟨t, rfl⟩ := h
  cases l₁ with
  | nil => simp at ha
  | cons x r => simpa using ha

theorem stripList_head_false {p : Char → Bool} {l : List Char} {a : Char}
    (h : (stripList p l).head? = some a) : p a = false :=
  dropWhile_head_false (prefix_head_eq (stripList_front l) h)

theorem stripList_idem (p : Char → Bool) (l : List Char) :
    stripList p (stripList p l) = stripList p l := by
  have hdrop : (stripList p l).dropWhile p = stripList p l := by
    cases hr : stripList p l with
    | nil => rfl
    | cons x t =>
      have hx : p x = false := @stripList_head_false p l x (by rw [hr]; rfl)
      simp [List.dropWhile_cons, hx]
  have hrev : (stripList p l).reverse = (l.dropWhile p).reverse.dropWhile p := by
    unfold stripList; rw [List.reverse_reverse]
  calc stripList p (stripList p l)
      = (((stripList p l).dropWhile p).reverse.dropWhile p).reverse := rfl
    _ = ((stripList p l).reverse.dropWhile p).reverse := by rw [hdrop]
    _ = (((l.dropWhile p).reverse.dropWhile p).dropWhile p).reverse := by rw [hrev]
    _ = ((l.dropWhile p).reverse.dropWhile p).reverse := by rw [dropWhile_idem]
    _ = ((stripList p l).reverse).reverse := by rw [← hrev]
    _ = stripList p l := List.reverse_reverse _

theorem noDouble_tail {a : Char} {l : List Char} (h : noDouble (a :: l)) : noDouble l := by
  cases l with
  | nil => trivial
  | cons b t => exact h.2

theorem noDouble_cons {a : Char} {l : List Char}
    (h1 : ∀ x, l.head? = some x → ¬(a = '_' ∧ x = '_')) (h2 : noDouble l) :
    noDouble (a :: l) := by
  cases l with
  | nil => trivial
  | cons b t => exact ⟨h1 b rfl, h2⟩

theorem noDouble_append_left {l₁ l₂ : List Char} (h : noDouble (l₁ ++ l₂)) :
    noDouble l₁ := by
  induction l₁ with
  | nil => trivial
  | cons a t ih =>
    cases t with
    | nil => trivial
    | cons b r => exact ⟨h.1, ih h.2⟩

theorem noDouble_append_right {l₁ l₂ : List Char} (h : noDouble (l₁ ++ l₂)) :
    noDouble l₂ := by
  induction l₁ with
  | nil => exact h
  | cons a t ih => exact ih (noDouble_tail h)

theorem noDouble_of_prefix {l₁ l₂ : List Char} (h : l₁ <+: l₂) (hd : noDouble l₂) :
    noDouble l₁ := by
  obtain ⟨t, rfl⟩ := h
  exact noDouble_append_left hd

theorem noDouble_of_suffix {l₁ l₂ : List Char} (h : l₁ <:+ l₂) (hd : noDouble l₂) :
    noDouble l₁ := by
  obtain ⟨t, rfl⟩ := h
  exact noDouble_append_right hd

theorem underscore_true_head {l : List Char} {a : Char}
    (h : (underscore true l).head? = some a) : isAlnumChar a = true := by
  induction l with
  | nil => simp [underscore] at h
  | cons c t ih =>
    by_cases hc : isAlnumChar c
    · simp [underscore, hc] at h
      exact h ▸ hc
    · simp [underscore, hc] at h
      exact ih h

theorem underscore_noDouble (l : List Char) : ∀ b, noDouble (underscore b l) := by
  induction l with
  | nil => intro b; trivial
  | cons c t ih =>
    intro b
    by_cases hc : isAlnumChar c
    · rw [show underscore b (c :: t) = c :: underscore false t from by simp [underscore, hc]]
      refine noDouble_cons (fun x hx => ?_) (ih false)
      rintro ⟨rfl, rfl⟩
      exact absurd hc (by decide)
    · cases b with
      | true =>
        rw [show underscore true (c :: t) = underscore true t from by simp [underscore, hc]]
        exact ih true
      | false =>
        rw [show underscore false (c :: t) = '_' :: underscore true t from by
          simp [underscore, hc]]
        refine noDouble_cons (fun x hx => ?_) (ih true)
        rintro ⟨-, rfl⟩
        exact absurd (underscore_true_head hx) (by decide)

theorem underscore_fixed (l : List Char)
    (hc : ∀ c ∈ l, isAlnumChar c = true ∨ c = '_') (hd : noDouble l) :
    underscore false l = l ∧ (l.head? ≠ some '_' → underscore true l = l) := by
  induction l with
  | nil => exact ⟨rfl, fun _ => rfl⟩
  | cons a t ih =>
    have ha := hc a (List.mem_cons_self a t)
    obtain ⟨ih1, ih2⟩ := ih (fun c h => hc c (List.mem_cons_of_mem a h)) (noDouble_tail hd)
    rcases ha with ha | ha
    · constructor
      · simp [underscore, ha, ih1]
      · intro _; simp [underscore, ha, ih1]
    · subst ha
      have hu : isAlnumChar '_' = false := by decide
      constructor
      · rw [show underscore false ('_' :: t) = '_' :: underscore true t from by
          simp [underscore, hu]]
        congr 1
        apply ih2
        intro hh
        cases t with
        | nil => simp at hh
        | cons b r =>
          simp at hh
          exact hd.1 ⟨rfl, hh⟩
      · intro hne
        exact absurd rfl hne

theorem toList_mk (l : List Char) : (String.mk l).toList = l := rfl

theorem sanitize_chars (s : String) :
    ∀ c ∈ (sanitize_col s).toList, isAlnumChar c = true ∨ c = '_' := by
  intro c hcm
  simp only [sanitize_col] at hcm
  split at hcm
  · have h7 : "unnamed".toList = ['u', 'n', 'n', 'a', 'm', 'e', 'd'] := rfl
    rw [h7] at hcm
    fin_cases hcm <;> exact Or.inl (by decide)
  · rw [toList_mk] at hcm
    exact underscore_chars _ false c (stripList_subset hcm)

theorem sanitize_fixes_good (t : List Char)
    (htc : ∀ c ∈ t, isAlnumChar c = true ∨ c = '_')
    (hstrip : stripList (fun c => c == '_') t = t) (hnd : noDouble t) :
    sanitize_col (String.mk t) = if t.isEmpty then "unnamed" else String.mk t := by
  simp only [sanitize_col, toList_mk]
  rw [collapseWs_id t (fun c hc => san_not_space (htc c hc)) false]
  rw [stripList_all_false (fun c hc => san_not_space (htc c hc))]
  rw [(underscore_fixed t htc hnd).1]
  rw [hstrip]

theorem sanitize_out (s : String) :
    sanitize_col s = "unnamed" ∨
      ∃ u : List Char, sanitize_col s = String.mk (stripList (fun c => c == '_') u) ∧
        noDouble u ∧ (∀ c ∈ u, isAlnumChar c = true ∨ c = '_') ∧
        (stripList (fun c => c == '_') u).isEmpty = false := by
  simp only [sanitize_col]
  split
  · exact Or.inl rfl
  · next h =>
    exact Or.inr ⟨underscore false (stripList isPySpaceChar (collapseWs false s.toList)),
      rfl, underscore_noDouble _ false, underscore_chars _ false, by simpa using h⟩

/-! ## Header aggregation: growth and uniqueness -/

theorem appendUnseen_grows (hs : List String) (c : String) : hs <+: appendUnseen hs c := by
  unfold appendUnseen
  split
  · exact List.prefix_rfl
  · exact ⟨[c], rfl⟩

theorem appendUnseen_nodup {hs : List String} (h : hs.Nodup) (c : String) :
    (appendUnseen hs c).Nodup := by
  unfold appendUnseen
  split
  · exact h
  · next hmem =>
    exact h.append (List.nodup_singleton c)
      (fun x hx hxc => by simp at hxc; subst hxc; exact hmem hx)

theorem foldl_grows {α : Type} (f : List String → α → List String)
    (hf : ∀ hs a, hs <+: f hs a) : ∀ (l : List α) (hs : List String), hs <+: l.foldl f hs := by
  intro l
  induction l with
  | nil => intro hs; exact List.prefix_rfl
  | cons a t ih => intro hs; exact (hf hs a).trans (ih (f hs a))

theorem foldl_nodup {α : Type} (f : List String → α → List String)
    (hf : ∀ hs a, hs.Nodup → (f hs a).Nodup) :
    ∀ (l : List α) (hs : List String), hs.Nodup → (l.foldl f hs).Nodup := by
  intro l
  induction l with
  | nil => intro hs h; exact h
  | cons a t ih => intro hs h; exact ih (f hs a) (hf hs a h)

theorem headerStep_grows (hs : List String) (blocks : List (String × List String)) :
    hs <+: headerStep hs blocks := by
  unfold headerStep
  apply foldl_grows
  intro hs' b
  refine List.IsPrefix.trans ?_ (foldl_grows appendUnseen appendUnseen_grows b.2 _)
  split
  · exact appendUnseen_grows hs' b.1
  · exact List.prefix_rfl

theorem headerStep_nodup {hs : List String} (h : hs.Nodup)
    (blocks : List (String × List String)) : (headerStep hs blocks).Nodup := by
  unfold headerStep
  refine foldl_nodup _ ?_ blocks hs h
  intro hs' b hb
  refine foldl_nodup appendUnseen (fun l c hl => appendUnseen_nodup hl c) b.2 _ ?_
  split
  · exact appendUnseen_nodup hb b.1
  · exact hb

/-! ## Dict operations: lookup versus update -/

theorem getKey_mem {d : Dict} {k : String} {v : Json} (h : getKey d k = some v) :
    ∃ p ∈ d, p.1 = k ∧ p.2 = v := by
  unfold getKey at h
  cases hf : d.find? (fun p => p.1 == k) with
  | none => rw [hf] at h; simp at h
  | some q =>
    rw [hf] at h
    simp at h
    have hq := List.mem_of_find?_eq_some hf
    have hqk := List.find?_some hf
    simp only [beq_iff_eq] at hqk
    exact ⟨q, hq, hqk, h⟩

theorem hasKey_iff_getKey {d : Dict} {k : String} :
    hasKey d k = true ↔ ∃ v, getKey d k = some v := by
  induction d with
  | nil => simp [hasKey, getKey]
  | cons p t ih =>
    by_cases hp : (p.1 == k) = true
    · simp only [hasKey, List.any_cons, hp, Bool.true_or, true_iff]
      exact ⟨p.2, by unfold getKey; simp [List.find?_cons, hp]⟩
    · have h1 : hasKey (p :: t) k = hasKey t k := by
        unfold hasKey; simp [List.any_cons, hp]
      have h2 : getKey (p :: t) k = getKey t k := by
        unfold getKey; simp [List.find?_cons, hp]
      rw [h1, h2]; exact ih

theorem find?_map_set (k : String) (v : Json) :
    ∀ d : Dict, hasKey d k = true →
      getKey (d.map (fun p => if p.1 == k then (k, v) else p)) k = some v := by
  intro d
  induction d with
  | nil => intro h; simp [hasKey] at h
  | cons p t ih =>
    intro h
    by_cases hp : (p.1 == k) = true
    · simp only [List.map_cons, if_pos hp]
      unfold getKey
      simp [List.find?_cons]
    · simp only [List.map_cons, if_neg hp]
      unfold getKey
      simp only [List.find?_cons, hp, Bool.false_eq_true, if_false]
      apply ih
      unfold hasKey at h ⊢
      simpa [List.any_cons, hp] using h

theorem getKey_append_right (k : String) (v : Json) :
    ∀ d : Dict, hasKey d k = false → getKey (d ++ [(k, v)]) k = some v := by
  intro d
  induction d with
  | nil =>
    intro _
    unfold getKey
    simp [List.find?_cons]
  | cons p t ih =>
    intro h
    unfold hasKey at h
    simp only [List.any_cons, Bool.or_eq_false_iff] at h
    unfold getKey
    rw [List.cons_append]
    simp only [List.find?_cons, h.1, Bool.false_eq_true, if_false]
    exact ih h.2

theorem getKey_setKV_self (d : Dict) (k : String) (v : Json) :
    getKey (setKV d k v) k = some v := by
  unfold setKV
  split
  · next h => exact find?_map_set k v d h
  · next h => exact getKey_append_right k v d (by simpa using h)

theorem getKey_append_other (c k : String) (v : Json) (hck : c ≠ k) :
    ∀ d : Dict, getKey (d ++ [(k, v)]) c = getKey d c := by
  have hkc : (k == c) = false := by
    rw [beq_eq_false_iff_ne]
    exact Ne.symm hck
  intro d
  induction d with
  | nil =>
    unfold getKey
    simp [List.find?_cons, hkc]
  | cons p t ih =>
    unfold getKey
    rw [List.cons_append]
    by_cases hp : (p.1 == c) = true
    · simp [List.find?_cons, hp]
    · simp only [List.find?_cons, hp, Bool.false_eq_true, if_false]
      exact ih

theorem map_set_other (k : String) (v : Json) (c : String) (hck : c ≠ k) :
    ∀ d : Dict,
      getKey (d.map (fun p => if p.1 == k then (k, v) else p)) c = getKey d c := by
  have hkc : (k == c) = false := by
    rw [beq_eq_false_iff_ne]
    exact Ne.symm hck
  intro d
  induction d with
  | nil => rfl
  | cons p t ih =>
    simp only [List.map_cons]
    by_cases hpk : (p.1 == k) = true
    · rw [if_pos hpk]
      have hpc : (p.1 == c) = false := by
        rw [beq_eq_false_iff_ne]
        rw [beq_iff_eq] at hpk
        rw [hpk]
        exact Ne.symm hck
      unfold getKey
      simp only [List.find?_cons, hpc, hkc, Bool.false_eq_true, if_false]
      exact ih
    · rw [if_neg hpk]
      by_cases hpc : (p.1 == c) = true
      · unfold getKey; simp [List.find?_cons, hpc]
      · unfold getKey
        simp only [List.find?_cons, hpc, Bool.false_eq_true, if_false]
        exact ih

theorem getKey_setKV_ne (k : String) (v : Json) (c : String) (hck : c ≠ k)
    (d : Dict) : getKey (setKV d k v) c = getKey d c := by
  unfold setKV
  split
  · exact map_set_other k v c hck d
  · exact getKey_append_other c k v hck d

theorem getKey_setdefault_ne (k : String) (v : Json) (c : String) (hck : c ≠ k)
    (d : Dict) : getKey (setdefault d k v) c = getKey d c := by
  unfold setdefault
  split
  · rfl
  · exact getKey_append_other c k v hck d

theorem getKey_setdefault_absent (k : String) (v : Json) (d : Dict)
    (h : hasKey d k = false) : getKey (setdefault d k v) k = some v := by
  unfold setdefault
  rw [if_neg (by simp [h])]
  exact getKey_append_right k v d h

theorem getKey_setdefault_present (k : String) (v : Json) (d : Dict)
    (h : hasKey d k = true) : getKey (setdefault d k v) k = getKey d k := by
  unfold setdefault
  rw [if_pos h]

theorem getKey_updateAll_ne (c : String) :
    ∀ (new : Dict) (d : Dict), (∀ q ∈ new, q.1 ≠ c) →
      getKey (updateAll d new) c = getKey d c := by
  intro new
  induction new with
  | nil => intro d _; rfl
  | cons q t ih =>
    intro d hq
    unfold updateAll at ih ⊢
    rw [List.foldl_cons]
    rw [ih (setKV d q.1 q.2) (fun r hr => hq r (List.mem_cons_of_mem q hr))]
    exact getKey_setKV_ne q.1 q.2 c
      (fun h => hq q (List.mem_cons_self q t) h.symm) d

theorem mem_setKV {d : Dict} {k : String} {v : Json} {p : String × Json}
    (h : p ∈ setKV d k v) : p ∈ d ∨ p = (k, v) := by
  unfold setKV at h
  split at h
  · rw [List.mem_map] at h
    obtain ⟨q, hq, hpq⟩ := h
    by_cases hk : (q.1 == k) = true
    · rw [if_pos hk] at hpq
      exact Or.inr hpq.symm
    · rw [if_neg hk] at hpq
      exact Or.inl (hpq ▸ hq)
  · rw [List.mem_append] at h
    rcases h with h | h
    · exact Or.inl h
    · simp at h
      exact Or.inr (by simp [h])

theorem mem_setdefault {d : Dict} {k : String} {v : Json} {p : String × Json}
    (h : p ∈ setdefault d k v) : p ∈ d ∨ p = (k, v) := by
  unfold setdefault at h
  split at h
  · exact Or.inl h
  · rw [List.mem_append] at h
    rcases h with h | h
    · exact Or.inl h
    · simp at h
      exact Or.inr (by simp [h])

theorem mem_updateAll {p : String × Json} :
    ∀ (new : Dict) (d : Dict), p ∈ updateAll d new → p ∈ d ∨ p ∈ new := by
  intro new
  induction new with
  | nil => intro d h; exact Or.inl h
  | cons q t ih =>
    intro d h
    unfold updateAll at h ih
    rw [List.foldl_cons] at h
    rcases ih (setKV d q.1 q.2) h with h2 | h2
    · rcases mem_setKV h2 with h3 | h3
      · exact Or.inl h3
      · exact Or.inr (by rw [h3]; exact List.mem_cons_self _ t)
    · exact Or.inr (List.mem_cons_of_mem q h2)

theorem getKey_mapValues (f : Json → Json) (c : String) :
    ∀ d : Dict, getKey (mapValues f d) c = (getKey d c).map f := by
  intro d
  induction d with
  | nil => rfl
  | cons p t ih =>
    unfold mapValues at ih ⊢
    rw [List.map_cons]
    by_cases hp : (p.1 == c) = true
    · unfold getKey; simp [List.find?_cons, hp]
    · unfold getKey
      simp only [List.find?_cons, hp, Bool.false_eq_true, if_false]
      exact ih

/-! ## Question-column names contain only word characters

Every column name produced for a question (sanitizer output, optional
`"__"`-joined parts, flattener output keys) consists of `[A-Za-z0-9_]`
characters only, so it can never equal a section-separator name, which
always contains `":"`. -/

theorem toList_append (a b : String) : (a ++ b).toList = a.toList ++ b.toList := by
  cases a
  cases b
  rfl

theorem good_append {a b : String}
    (ha : ∀ c ∈ a.toList, isAlnumChar c = true ∨ c = '_')
    (hb : ∀ c ∈ b.toList, isAlnumChar c = true ∨ c = '_') :
    ∀ c ∈ (a ++ b).toList, isAlnumChar c = true ∨ c = '_' := by
  intro c hc
  rw [toList_append, List.mem_append] at hc
  rcases hc with hc | hc
  · exact ha c hc
  · exact hb c hc

theorem good_underscores : ∀ c ∈ "__".toList, isAlnumChar c = true ∨ c = '_' := by
  intro c hc
  have h : "__".toList = ['_', '_'] := rfl
  rw [h] at hc
  fin_cases hc <;> exact Or.inr rfl

theorem dupSuffix_good (qid : Option String) :
    ∀ c ∈ (dupSuffix qid).toList, isAlnumChar c = true ∨ c = '_' := by
  unfold dupSuffix
  split
  · exact sanitize_chars _
  · intro c hc
    have h : "dup".toList = ['d', 'u', 'p'] := rfl
    rw [h] at hc
    fin_cases hc <;> exact Or.inl (by decide)

theorem build_header_name_def (qt : String) (qid : Option String) (st : String)
    (iq ps : Bool) :
    build_header_name qt qid st iq ps =
      (if iq && strTruthy qid then
        (if ps && !st.isEmpty then
          sanitize_col st ++ "__" ++
            sanitize_col (if !qt.isEmpty then qt
              else if strTruthy qid then qid.getD "" else "question")
         else
          sanitize_col (if !qt.isEmpty then qt
            else if strTruthy qid then qid.getD "" else "question")) ++ "__" ++
          sanitize_col (qid.getD "")
       else
        if ps && !st.isEmpty then
          sanitize_col st ++ "__" ++
            sanitize_col (if !qt.isEmpty then qt
              else if strTruthy qid then qid.getD "" else "question")
        else
          sanitize_col (if !qt.isEmpty then qt
            else if strTruthy qid then qid.getD "" else "question")) := rfl

theorem build_header_name_good (qt : String) (qid : Option String) (st : String)
    (iq ps : Bool) :
    ∀ c ∈ (build_header_name qt qid st iq ps).toList, isAlnumChar c = true ∨ c = '_' := by
  intro c hc
  rw [build_header_name_def] at hc
  split at hc
  · split at hc
    · exact good_append (good_append (good_append (good_append (sanitize_chars _)
        good_underscores) (sanitize_chars _)) good_underscores) (sanitize_chars _) c hc
    · exact good_append (good_append (sanitize_chars _) good_underscores)
        (sanitize_chars _) c hc
  · split at hc
    · exact good_append (good_append (sanitize_chars _) good_underscores)
        (sanitize_chars _) c hc
    · exact sanitize_chars _ c hc

mutual

theorem flatten_keys : ∀ (pre : String) (v : Json) (p : String × Json),
    p ∈ flatten pre v → ∀ c ∈ p.1.toList, isAlnumChar c = true ∨ c = '_'
  | pre, .obj kvs => fun p hp =>
      flattenObj_keys pre kvs [] (by intro q hq; simp at hq) p hp
  | pre, .arr xs => by
      intro p hp c hc
      unfold flatten at hp
      split at hp <;>
        (rw [List.mem_singleton] at hp; subst hp; exact sanitize_chars pre c hc)
  | pre, .null => by
      intro p hp c hc
      unfold flatten at hp
      rw [List.mem_singleton] at hp
      subst hp
      exact sanitize_chars pre c hc
  | pre, .bool b => by
      intro p hp c hc
      unfold flatten at hp
      rw [List.mem_singleton] at hp
      subst hp
      exact sanitize_chars pre c hc
  | pre, .int n => by
      intro p hp c hc
      unfold flatten at hp
      rw [List.mem_singleton] at hp
      subst hp
      exact sanitize_chars pre c hc
  | pre, .str s => by
      intro p hp c hc
      unfold flatten at hp
      rw [List.mem_singleton] at hp
      subst hp
      exact sanitize_chars pre c hc

theorem flattenObj_keys : ∀ (pre : String) (kvs : List (String × Json)) (out : Dict),
    (∀ q ∈ out, ∀ c ∈ q.1.toList, isAlnumChar c = true ∨ c = '_') →
    ∀ p ∈ flattenObj pre kvs out, ∀ c ∈ p.1.toList, isAlnumChar c = true ∨ c = '_'
  | pre, [], out => fun hout p hp => hout p hp
  | pre, (k, v) :: rest, out => fun hout p hp => by
      simp only [flattenObj] at hp
      split at hp
      · exact flattenObj_keys pre rest _ (fun q hq => by
          rcases mem_updateAll _ _ hq with h | h
          · exact hout q h
          · exact flatten_keys _ v q h) p hp
      · exact flattenObj_keys pre rest _ (fun q hq => by
          rcases mem_setKV hq with h | h
          · exact hout q h
          · intro c hc
            rw [h] at hc
            exact sanitize_chars _ c hc) p hp

end

/-! ## Separator columns: established once, never overwritten -/

theorem good_no_colon {s : String}
    (hg : ∀ c ∈ s.toList, isAlnumChar c = true ∨ c = '_') : ':' ∉ s.toList := by
  intro hc
  rcases hg ':' hc with h | h
  · exact absurd h (by decide)
  · exact absurd h (by decide)

theorem good_ne_colon {s n : String}
    (hg : ∀ c ∈ s.toList, isAlnumChar c = true ∨ c = '_')
    (hn : ':' ∈ n.toList) : s ≠ n := by
  rintro rfl
  exact good_no_colon hg hn

theorem sep_has_colon (t : String) : ':' ∈ (section_separator_header t).toList := by
  unfold section_separator_header
  rw [toList_append, List.mem_append]
  exact Or.inl (by decide)

theorem sep_not_empty (t : String) : (section_separator_header t).isEmpty = false := by
  rw [Bool.eq_false_iff]
  intro h
  rw [String.isEmpty_iff] at h
  have h2 := congrArg String.toList h
  unfold section_separator_header at h2
  rw [toList_append] at h2
  rcases List.append_eq_nil.mp h2 with ⟨h3, -⟩
  exact absurd h3 (by decide)

theorem dupSuffix_col_good (col : String) (q_id : Option String)
    (hcol : ∀ c ∈ col.toList, isAlnumChar c = true ∨ c = '_') :
    ∀ c ∈ (col ++ "__" ++ dupSuffix q_id).toList, isAlnumChar c = true ∨ c = '_' :=
  good_append (good_append hcol good_underscores) (dupSuffix_good q_id)

theorem processQuestion_colon (iq ps : Bool) (secTitle : String) (st : QState)
    (qJ : Json) (n : String) (hn : ':' ∈ n.toList) :
    getKey (processQuestion iq ps secTitle st qJ).dynamic n = getKey st.dynamic n := by
  simp only [processQuestion]
  split
  · apply getKey_updateAll_ne
    intro q hq
    exact good_ne_colon (flatten_keys _ _ q hq) hn
  · apply getKey_setKV_ne
    refine Ne.symm (good_ne_colon ?_ hn)
    split
    · exact dupSuffix_col_good _ _ (build_header_name_good _ _ _ _ _)
    · exact build_header_name_good _ _ _ _ _

theorem processQuestion_inv (iq ps : Bool) (secTitle : String) (st : QState) (qJ : Json)
    (hinv : ∀ p ∈ st.dynamic, ':' ∈ p.1.toList → p.2 = Json.str "") :
    ∀ p ∈ (processQuestion iq ps secTitle st qJ).dynamic,
      ':' ∈ p.1.toList → p.2 = Json.str "" := by
  simp only [processQuestion]
  split
  · intro p hp hcolon
    rcases mem_updateAll _ _ hp with h | h
    · exact hinv p h hcolon
    · exact absurd hcolon (good_no_colon (flatten_keys _ _ p h))
  · intro p hp hcolon
    rcases mem_setKV hp with h | h
    · exact hinv p h hcolon
    · exfalso
      rw [h] at hcolon
      revert hcolon
      refine good_no_colon ?_
      split
      · exact dupSuffix_col_good _ _ (build_header_name_good _ _ _ _ _)
      · exact build_header_name_good _ _ _ _ _

theorem qfold_colon (iq ps : Bool) (secTitle : String) (qs : List Json) :
    ∀ (st : QState) (n : String), ':' ∈ n.toList →
      getKey ((qs.foldl (processQuestion iq ps secTitle) st).dynamic) n
        = getKey st.dynamic n := by
  induction qs with
  | nil => intro st n _; rfl
  | cons q t ih =>
    intro st n hn
    rw [List.foldl_cons, ih _ n hn]
    exact processQuestion_colon iq ps secTitle st q n hn

theorem qfold_inv (iq ps : Bool) (secTitle : String) (qs : List Json) :
    ∀ st : QState,
      (∀ p ∈ st.dynamic, ':' ∈ p.1.toList → p.2 = Json.str "") →
      ∀ p ∈ ((qs.foldl (processQuestion iq ps secTitle) st).dynamic),
        ':' ∈ p.1.toList → p.2 = Json.str "" := by
  induction qs with
  | nil => intro st h; exact h
  | cons q t ih =>
    intro st h
    rw [List.foldl_cons]
    exact ih _ (processQuestion_inv iq ps secTitle st q h)

theorem setdefault_inv {d : Dict} {k : String}
    (hinv : ∀ p ∈ d, ':' ∈ p.1.toList → p.2 = Json.str "") :
    ∀ p ∈ setdefault d k (Json.str ""), ':' ∈ p.1.toList → p.2 = Json.str "" := by
  intro p hp hcolon
  rcases mem_setdefault hp with h | h
  · exact hinv p h hcolon
  · rw [h]

theorem processSection_inv (iq ps : Bool) (acc : Dict × List (String × List String))
    (secJ : Json)
    (hinv : ∀ p ∈ acc.1, ':' ∈ p.1.toList → p.2 = Json.str "") :
    ∀ p ∈ (processSection iq ps true acc secJ).1,
      ':' ∈ p.1.toList → p.2 = Json.str "" := by
  simp only [processSection, sep_not_empty, Bool.not_false, if_true]
  exact qfold_inv iq ps _ _ _ (setdefault_inv hinv)

theorem processSection_self (iq ps : Bool) (acc : Dict × List (String × List String))
    (secJ : Json)
    (hinv : ∀ p ∈ acc.1, ':' ∈ p.1.toList → p.2 = Json.str "") :
    getKey (processSection iq ps true acc secJ).1
      (section_separator_header (sectionTitleOf (asDict secJ))) = some (Json.str "") := by
  simp only [processSection, sep_not_empty, Bool.not_false, if_true]
  rw [qfold_colon _ _ _ _ _ _ (sep_has_colon _)]
  by_cases h : hasKey acc.1 (section_separator_header (sectionTitleOf (asDict secJ))) = true
  · rw [getKey_setdefault_present _ _ _ h]
    obtain ⟨v, hv⟩ := hasKey_iff_getKey.mp h
    obtain ⟨p, hpmem, hpk, hpv⟩ := getKey_mem hv
    rw [hv]
    have hval := hinv p hpmem (by rw [hpk]; exact sep_has_colon _)
    rw [← hpv, hval]
  · rw [getKey_setdefault_absent _ _ _ (by simpa using h)]

theorem processSection_keeps (iq ps : Bool) (acc : Dict × List (String × List String))
    (secJ : Json) (n : String) (hn : ':' ∈ n.toList)
    (hv : getKey acc.1 n = some (Json.str "")) :
    getKey (processSection iq ps true acc secJ).1 n = some (Json.str "") := by
  simp only [processSection, sep_not_empty, Bool.not_false, if_true]
  rw [qfold_colon _ _ _ _ _ _ hn]
  by_cases hns : n = section_separator_header (sectionTitleOf (asDict secJ))
  · subst hns
    rw [getKey_setdefault_present _ _ _ (hasKey_iff_getKey.mpr ⟨_, hv⟩)]
    exact hv
  · rw [getKey_setdefault_ne _ _ _ hns]
    exact hv

theorem secfold_keeps (iq ps : Bool) (secs : List Json) :
    ∀ (acc : Dict × List (String × List String)) (n : String), ':' ∈ n.toList →
      (∀ p ∈ acc.1, ':' ∈ p.1.toList → p.2 = Json.str "") →
      getKey acc.1 n = some (Json.str "") →
      getKey ((secs.foldl (processSection iq ps true) acc).1) n = some (Json.str "") := by
  induction secs with
  | nil => intro acc n _ _ hv; exact hv
  | cons s0 rest ih =>
    intro acc n hn hinv hv
    rw [List.foldl_cons]
    exact ih _ n hn (processSection_inv iq ps acc s0 hinv)
      (processSection_keeps iq ps acc s0 n hn hv)

theorem secfold_target (iq ps : Bool) (secs : List Json) :
    ∀ acc : Dict × List (String × List String),
      (∀ p ∈ acc.1, ':' ∈ p.1.toList → p.2 = Json.str "") →
      ∀ secJ ∈ secs,
        getKey ((secs.foldl (processSection iq ps true) acc).1)
          (section_separator_header (sectionTitleOf (asDict secJ))) = some (Json.str "") := by
  induction secs with
  | nil => intro acc _ secJ h; simp at h
  | cons s0 rest ih =>
    intro acc hinv secJ hm
    rw [List.foldl_cons]
    rcases List.mem_cons.mp hm with rfl | hm2
    · exact secfold_keeps iq ps rest _ _ (sep_has_colon _)
        (processSection_inv iq ps acc secJ hinv)
        (processSection_self iq ps acc secJ hinv)
    · exact ih (processSection iq ps true acc s0)
        (processSection_inv iq ps acc s0 hinv) secJ hm2

theorem extract_row_sep (root_meta sub : Dict) (iq ps : Bool) (secJ : Json)
    (hm : secJ ∈ getList sub "sections") :
    getKey (extract_row root_meta sub iq ps true).2.1
      (section_separator_header (sectionTitleOf (asDict secJ))) = some (Json.str "") := by
  simp only [extract_row]
  rw [getKey_mapValues]
  rw [secfold_target iq ps _ ([], []) (by intro p hp; simp at hp) secJ hm]
  rfl

/-! ## Constant-column filter -/

theorem contains_false {l : List String} {c : String} (h : c ∉ l) :
    l.contains c = false := by
  rw [Bool.eq_false_iff]
  intro hc
  exact h (List.mem_of_elem_eq_true hc)

theorem getKey_filterKeys (remove : List String) (c : String)
    (hc : remove.contains c = false) :
    ∀ r : Dict, getKey (r.filter (fun p => !remove.contains p.1)) c = getKey r c := by
  intro r
  induction r with
  | nil => rfl
  | cons p t ih =>
    by_cases hp : (p.1 == c) = true
    · have hpc : p.1 = c := by simpa using hp
      have h1 : (!remove.contains p.1) = true := by rw [hpc, hc]; rfl
      rw [List.filter_cons, if_pos h1]
      unfold getKey
      simp [List.find?_cons, hp]
    · rw [List.filter_cons]
      by_cases h1 : (!remove.contains p.1) = true
      · rw [if_pos h1]
        unfold getKey
        simp only [List.find?_cons, hp, Bool.false_eq_true, if_false]
        exact ih
      · rw [if_neg h1]
        unfold getKey at ih ⊢
        simp only [List.find?_cons, hp, Bool.false_eq_true, if_false]
        exact ih

theorem hasKey_filterKeys_removed (remove : List String) (r : Dict) (c : String)
    (hc : remove.contains c = true) :
    hasKey (r.filter (fun p => !remove.contains p.1)) c = false := by
  rw [Bool.eq_false_iff]
  intro h
  obtain ⟨v, hv⟩ := hasKey_iff_getKey.mp h
  obtain ⟨p, hpmem, hpk, -⟩ := getKey_mem hv
  rw [List.mem_filter] at hpmem
  have h2 := hpmem.2
  rw [hpk, hc] at h2
  exact absurd h2 (by decide)

theorem sectionKeepPat_of_sep {c : String} (h : "Section: ".toList <+: c.toList) :
    sectionKeepPat c = true := by
  obtain ⟨t, ht⟩ := h
  unfold sectionKeepPat
  rw [← ht]
  rfl

theorem dcc_not_removed_of_keep (rows : List Dict) (ie : Bool)
    (kp : List (String → Bool)) (c : String) (hp : force_keep kp c = true) :
    c ∉ (drop_constant_columns rows ie kp).2 := by
  cases rows with
  | nil => simp [drop_constant_columns]
  | cons r0 rest =>
    simp only [drop_constant_columns]
    intro hc
    rw [List.mem_filter] at hc
    have h2 := hc.2
    rw [hp] at h2
    simp at h2

theorem dcc_values_preserved (rows : List Dict) (ie : Bool)
    (kp : List (String → Bool)) (c : String)
    (hc : c ∉ (drop_constant_columns rows ie kp).2) :
    (drop_constant_columns rows ie kp).1.map (fun r => getKey r c)
      = rows.map (fun r => getKey r c) := by
  cases rows with
  | nil => rfl
  | cons r0 rest =>
    simp only [drop_constant_columns] at hc ⊢
    split
    · rfl
    · rw [List.map_map]
      apply List.map_congr_left
      intro r _
      exact getKey_filterKeys _ c (contains_false hc) r

theorem dcc_row_count (rows : List Dict) (ie : Bool) (kp : List (String → Bool)) :
    (drop_constant_columns rows ie kp).1.length = rows.length := by
  cases rows with
  | nil => rfl
  | cons r0 rest =>
    simp only [drop_constant_columns]
    split
    · rfl
    · rw [List.length_map]

theorem dcc_removed_iff (r0 : Dict) (rest : List Dict) (ie : Bool)
    (kp : List (String → Bool)) (c : String) :
    c ∈ (drop_constant_columns (r0 :: rest) ie kp).2 ↔
      (c ∈ r0.map (fun p => p.1) ∧ force_keep kp c = false ∧
        (distinctVals (r0 :: rest) ie c).length ≤ 1) := by
  simp only [drop_constant_columns, List.mem_filter, Bool.and_eq_true,
    Bool.not_eq_true', decide_eq_true_eq, and_assoc]

theorem dcc_deleted_from_rows (rows : List Dict) (ie : Bool)
    (kp : List (String → Bool)) (c : String)
    (hc : c ∈ (drop_constant_columns rows ie kp).2) :
    ∀ r ∈ (drop_constant_columns rows ie kp).1, hasKey r c = false := by
  cases rows with
  | nil => simp [drop_constant_columns] at hc
  | cons r0 rest =>
    simp only [drop_constant_columns] at hc ⊢
    intro r hr
    split at hr
    · next hemp =>
      exfalso
      rw [List.isEmpty_iff] at hemp
      rw [hemp] at hc
      simp at hc
    · rw [List.mem_map] at hr
      obtain ⟨r', -, rfl⟩ := hr
      exact hasKey_filterKeys_removed _ r' c (List.elem_eq_true_of_mem hc)

/-! ## Shape coercion: which errors can each branch raise -/

theorem pyIter_ne_unrec (x : Json) :
    pyIterOrEmpty x ≠ Except.error CoerceErr.unrecognised := by
  unfold pyIterOrEmpty
  split
  · simp
  · cases x <;> simp

theorem appPairs_ne_unrec (app : Json) :
    appPairs app ≠ Except.error CoerceErr.unrecognised := by
  cases app with
  | obj kvs =>
    intro h
    simp only [appPairs, itemsOf, bind, Except.bind] at h
    cases hx : pyIterOrEmpty ((getKey kvs "submissions").getD (Json.arr [])) with
    | ok subs => rw [hx] at h; simp [pure, Except.pure] at h
    | error e =>
      rw [hx] at h
      simp at h
      exact pyIter_ne_unrec _ (by rw [hx, h])
  | null => intro h; simp [appPairs, itemsOf, bind, Except.bind] at h
  | bool b => intro h; simp [appPairs, itemsOf, bind, Except.bind] at h
  | int n => intro h; simp [appPairs, itemsOf, bind, Except.bind] at h
  | str s => intro h; simp [appPairs, itemsOf, bind, Except.bind] at h
  | arr xs => intro h; simp [appPairs, itemsOf, bind, Except.bind] at h

theorem appsList_ne_unrec (apps : List Json) :
    applicationsListPairs apps ≠ Except.error CoerceErr.unrecognised := by
  unfold applicationsListPairs
  generalize ([] : List (Dict × Json)) = init
  induction apps generalizing init with
  | nil => intro h; simp [List.foldlM, pure, Except.pure] at h
  | cons a t ih =>
    intro h
    rw [List.foldlM_cons] at h
    cases ha : appPairs a with
    | ok ps =>
      rw [ha] at h
      simp only [bind, Except.bind, pure, Except.pure] at h
      exact ih _ h
    | error e =>
      rw [ha] at h
      simp only [bind, Except.bind] at h
      simp at h
      exact appPairs_ne_unrec a (by rw [ha, h])

theorem coerce_obj_rest (kvs : Dict)
    (h1 : shapeAppsList (Json.obj kvs) = false)
    (h2 : shapeAppsObj (Json.obj kvs) = false) :
    coerce_to_pairs (Json.obj kvs) =
      match getKey kvs "submissions" with
      | some (Json.arr subs) =>
          Except.ok (subs.map (fun sub => (kvs.filter (fun p => p.1 != "submissions"), sub)))
      | _ =>
          if hasKey kvs "submissionId" || hasKey kvs "sections" then
            Except.ok [([], Json.obj kvs)]
          else Except.error CoerceErr.unrecognised := by
  cases happ : getKey kvs "applications" with
  | none => simp [coerce_to_pairs, happ]
  | some j =>
    cases j with
    | arr xs => simp [shapeAppsList, happ] at h1
    | obj a => simp [shapeAppsObj, happ] at h2
    | null => simp [coerce_to_pairs, happ]
    | bool b => simp [coerce_to_pairs, happ]
    | int n => simp [coerce_to_pairs, happ]
    | str s => simp [coerce_to_pairs, happ]

theorem subs_match_rest (kvs : Dict) (h3 : shapeSubsList (Json.obj kvs) = false) :
    (match getKey kvs "submissions" with
      | some (Json.arr subs) =>
          Except.ok (subs.map (fun sub => (kvs.filter (fun p => p.1 != "submissions"), sub)))
      | _ =>
          if hasKey kvs "submissionId" || hasKey kvs "sections" then
            Except.ok [([], Json.obj kvs)]
          else Except.error CoerceErr.unrecognised) =
      (if hasKey kvs "submissionId" || hasKey kvs "sections" then
        Except.ok [([], Json.obj kvs)]
      else Except.error CoerceErr.unrecognised) := by
  cases hsub : getKey kvs "submissions" with
  | none => rfl
  | some j =>
    cases j with
    | arr subs => simp [shapeSubsList, hsub] at h3
    | null => rfl
    | bool b => rfl
    | int n => rfl
    | str s => rfl
    | obj a => rfl

theorem coerce_unrec_rest (kvs : Dict)
    (h1 : shapeAppsList (Json.obj kvs) = false)
    (h2 : shapeAppsObj (Json.obj kvs) = false) :
    (coerce_to_pairs (Json.obj kvs) = Except.error CoerceErr.unrecognised) ↔
      (shapeAppsList (Json.obj kvs) || shapeAppsObj (Json.obj kvs) ||
       shapeSubsList (Json.obj kvs) || shapeBareList (Json.obj kvs) ||
       shapeSingleSub (Json.obj kvs)) = false := by
  rw [coerce_obj_rest kvs h1 h2, h1, h2]
  have hbare : shapeBareList (Json.obj kvs) = false := rfl
  rw [hbare]
  simp only [Bool.false_or, Bool.or_false]
  by_cases h3 : shapeSubsList (Json.obj kvs) = true
  · -- a top-level submissions list: never the unrecognised error
    constructor
    · intro hcoerce
      exfalso
      cases hsub : getKey kvs "submissions" with
      | none => simp [shapeSubsList, hsub] at h3
      | some j =>
        cases j with
        | arr subs => rw [hsub] at hcoerce; simp at hcoerce
        | null => simp [shapeSubsList, hsub] at h3
        | bool b => simp [shapeSubsList, hsub] at h3
        | int n => simp [shapeSubsList, hsub] at h3
        | str s => simp [shapeSubsList, hsub] at h3
        | obj a => simp [shapeSubsList, hsub] at h3
    · intro hfalse
      rw [h3] at hfalse
      simp at hfalse
  · rw [Bool.not_eq_true] at h3
    rw [subs_match_rest kvs h3, h3]
    simp only [Bool.false_or, shapeSingleSub]
    by_cases hid : (hasKey kvs "submissionId" || hasKey kvs "sections") = true
    · rw [if_pos hid, hid]
      simp
    · rw [if_neg hid]
      simp only [Bool.not_eq_true] at hid
      rw [hid]
      simp

/-! # Claim theorems -/

/-- Claim C1: the global header list built by `run_pipeline` (lines 75-104 of
`cli.py`, modelled by `rowHeaders`/`aggregateHeaders`) starts with the nine
fixed sanitized meta-column names in their canonical order, contains no
column name twice, and is append-only across rows: processing further
(root-metadata, submission) pairs only extends the list produced so far, so
the position of a column never changes once it first appears. -/
theorem C1_header_first_seen_stable (pairs more : List (Dict × Dict)) :
    META_ORDER = ["applicationFormName", "applicationFormVersion", "applicationId",
      "ggisReferenceNumber", "grantAdminEmailAddress", "submissionId",
      "grantApplicantEmailAddress", "submittedTimeStamp", "gapId"] ∧
    META_ORDER <+: aggregateHeaders pairs ∧
    (aggregateHeaders pairs).Nodup ∧
    rowHeaders pairs <+: rowHeaders (pairs ++ more) ∧
    rowHeaders pairs <+: aggregateHeaders pairs := by
  have hinit : META_ORDER.foldl appendUnseen [] = META_ORDER := by decide
  have hrowpre : ∀ ps : List (Dict × Dict), META_ORDER <+: rowHeaders ps := by
    intro ps
    unfold rowHeaders
    rw [hinit]
    exact foldl_grows _ (fun hs (e : Dict × Dict × List (String × List String)) => headerStep_grows hs e.2.2) _ _
  have haggpre : ∀ ps : List (Dict × Dict), rowHeaders ps <+: aggregateHeaders ps := by
    intro ps
    unfold aggregateHeaders
    exact foldl_grows appendUnseen appendUnseen_grows _ _
  refine ⟨by decide, (hrowpre pairs).trans (haggpre pairs), ?_, ?_, haggpre pairs⟩
  · unfold aggregateHeaders
    apply foldl_nodup appendUnseen (fun hs c h => appendUnseen_nodup h c)
    unfold rowHeaders
    apply foldl_nodup _ (fun hs (e : Dict × Dict × List (String × List String)) h => headerStep_nodup h e.2.2)
    rw [hinit]
    decide
  · unfold rowHeaders
    rw [List.map_append, List.foldl_append]
    exact foldl_grows _ (fun hs (e : Dict × Dict × List (String × List String)) => headerStep_grows hs e.2.2) _ _

/-- Claim C2 counterexample: flattening
`{"a": {"b": 2}, "a_b": 1}` under prefix `Q` produces only `{"Q_a_b": 1}`:
the scalar leaf `2` (reachable inside the value) ends up in no output
column, and the shallower key's scalar `1` overwrote the value `2` already
produced by recursion — refuting both "every scalar leaf reachable inside
the value ends up in exactly one output column" and "a shallower key's
scalar never overwrites a value already produced by recursion". -/
theorem C2_counterexample_flatten_leaf_lost :
    flatten "Q" (Json.obj [("a", Json.obj [("b", Json.int 2)]), ("a_b", Json.int 1)])
      = [("Q_a_b", Json.int 1)] ∧
    Json.int 2 ∈ specScalarLeaves
      (Json.obj [("a", Json.obj [("b", Json.int 2)]), ("a_b", Json.int 1)]) ∧
    ∀ p ∈ flatten "Q" (Json.obj [("a", Json.obj [("b", Json.int 2)]), ("a_b", Json.int 1)]),
      p.2 ≠ Json.int 2 :=
  ⟨by decide, by decide, by decide⟩

/-- Claim C2, amended: on a sanitized-name collision inside a keyed mapping
the key processed later wins whatever its depth (last write wins, so a
scalar leaf can be lost); the result is deterministic; and flattening
`{"a":1,"b":2}` under prefix `Q4` yields exactly the two columns
`Q4_a=1` and `Q4_b=2` and no others. -/
theorem C2_flatten_collision_last_write_wins :
    flatten "Q4" (Json.obj [("a", Json.int 1), ("b", Json.int 2)])
      = [("Q4_a", Json.int 1), ("Q4_b", Json.int 2)] ∧
    (∀ (pre k₁ k₂ : String) (v₁ v₂ : Json),
      isContainer v₁ = false → isContainer v₂ = false →
      sanitize_col (pre ++ "_" ++ k₁) = sanitize_col (pre ++ "_" ++ k₂) →
      flatten pre (Json.obj [(k₁, v₁), (k₂, v₂)])
        = [(sanitize_col (pre ++ "_" ++ k₁), v₂)]) ∧
    (∀ (pre : String) (v w : Json), v = w → flatten pre v = flatten pre w) := by
  refine ⟨by decide, ?_, fun pre v w h => by rw [h]⟩
  intro pre k₁ k₂ v₁ v₂ h1 h2 hcol
  simp only [flatten, flattenObj]
  rw [if_neg (by simp [h2]), if_neg (by simp [h1]), ← hcol]
  have hnil : setKV ([] : Dict) (sanitize_col (pre ++ "_" ++ k₁)) v₁
      = [(sanitize_col (pre ++ "_" ++ k₁), v₁)] := rfl
  rw [hnil]
  unfold setKV hasKey
  simp

/-- Claim C2 witness: the general collision clause applied at prefix `Q`
with keys `"a b"` and `"a_b"` (both sanitize to `Q_a_b`), and the
determinism clause at a concrete value. -/
theorem C2_flatten_witness :
    flatten "Q" (Json.obj [("a b", Json.int 1), ("a_b", Json.int 2)])
      = [("Q_a_b", Json.int 2)] ∧
    flatten "Q4" (Json.obj [("a", Json.int 1)]) = flatten "Q4" (Json.obj [("a", Json.int 1)]) := by
  constructor
  · have h := C2_flatten_collision_last_write_wins.2.1 "Q" "a b" "a_b"
      (Json.int 1) (Json.int 2) rfl rfl (by decide)
    rw [h]
    decide
  · exact C2_flatten_collision_last_write_wins.2.2 "Q4" _ _ rfl

/-- Claim C3 counterexample: in
`rows = [{"a": "1"}, {"a": "2", "b": ""}]` with no keep patterns and
`ignoreEmpty = false`, column `"b"` matches no keep pattern and its
distinct-value set (missing cells reading as `""`) has one element, yet
`drop_constant_columns` removes nothing — refuting the claim's
"removes a column if and only if ..." for columns absent from the first
row. -/
theorem C3_counterexample_first_row_only :
    drop_constant_columns
        [[("a", Json.str "1")], [("a", Json.str "2"), ("b", Json.str "")]] false []
      = ([[("a", Json.str "1")], [("a", Json.str "2"), ("b", Json.str "")]], []) ∧
    (distinctVals [[("a", Json.str "1")], [("a", Json.str "2"), ("b", Json.str "")]]
      false "b").length ≤ 1 :=
  ⟨by decide, by decide⟩

/-- Claim C3, amended: for a non-empty list of rows,
`drop_constant_columns` removes a column if and only if it occurs in the
first row, matches no keep pattern, and its distinct-value set across all
rows (missing cells reading as the empty string; blank values excluded
first when `ignoreEmpty` is set) has at most one element; every removed
column is deleted from every returned row, and the returned list has
exactly as many rows as the input. -/
theorem C3_drop_constant_columns_amended (r0 : Dict) (rest : List Dict) (ie : Bool)
    (kp : List (String → Bool)) (c : String) :
    (c ∈ (drop_constant_columns (r0 :: rest) ie kp).2 ↔
      (c ∈ r0.map (fun p => p.1) ∧ force_keep kp c = false ∧
        (distinctVals (r0 :: rest) ie c).length ≤ 1)) ∧
    (c ∈ (drop_constant_columns (r0 :: rest) ie kp).2 →
      ∀ r ∈ (drop_constant_columns (r0 :: rest) ie kp).1, hasKey r c = false) ∧
    (drop_constant_columns (r0 :: rest) ie kp).1.length = (r0 :: rest).length :=
  ⟨dcc_removed_iff r0 rest ie kp c,
   fun hc => dcc_deleted_from_rows _ ie kp c hc,
   dcc_row_count _ ie kp⟩

/-- Claim C3 witness: on rows where `"b"` is constantly `"1"`, the column
is removed and deleted from the first returned row. -/
theorem C3_drop_constant_columns_witness :
    hasKey ((drop_constant_columns
        [[("a", Json.str "1"), ("b", Json.str "1")],
         [("a", Json.str "2"), ("b", Json.str "1")]] false []).1.headD []) "b" = false := by
  have h := (C3_drop_constant_columns_amended
    [("a", Json.str "1"), ("b", Json.str "1")]
    [[("a", Json.str "2"), ("b", Json.str "1")]] false [] "b").2.1 (by decide)
  exact h _ (by decide)

/-- Claim C4: with section separators enabled, every section of every
submission contributes a `dynamic` column named `"Section: " + title`
(the title falling back through `sectionTitle`, `sectionId`,
`"Untitled Section"`, as `sectionTitleOf`/`section_separator_header`
compute) whose cell value is the empty string; and the pipeline's
constant-column pass, run with the keep pattern `^Section:\s`, never
removes a column whose name begins with `"Section: "` and preserves its
value in every row, whatever the values are. -/
theorem C4_section_separator_columns :
    (∀ (root_meta sub : Dict) (iq ps : Bool) (secJ : Json),
      secJ ∈ getList sub "sections" →
      getKey (extract_row root_meta sub iq ps true).2.1
        (section_separator_header (sectionTitleOf (asDict secJ))) = some (Json.str "")) ∧
    (∀ (rows : List Dict) (ie : Bool) (c : String),
      "Section: ".toList <+: c.toList →
      c ∉ (drop_constant_columns rows ie [sectionKeepPat]).2 ∧
      (drop_constant_columns rows ie [sectionKeepPat]).1.map (fun r => getKey r c)
        = rows.map (fun r => getKey r c)) := by
  constructor
  · exact fun rm sub iq ps secJ hm => extract_row_sep rm sub iq ps secJ hm
  · intro rows ie c hpre
    have hk : force_keep [sectionKeepPat] c = true := by
      unfold force_keep
      simp [sectionKeepPat_of_sep hpre]
    have h1 := dcc_not_removed_of_keep rows ie [sectionKeepPat] c hk
    exact ⟨h1, dcc_values_preserved rows ie [sectionKeepPat] c h1⟩

/-- Claim C4 witness: a submission with one untitled section gets the
always-empty column `"Section: Untitled Section"`, and the column
`"Section: Intro"` survives the constant pass on a concrete row set. -/
theorem C4_section_separator_witness :
    getKey (extract_row [] [("sections", Json.arr [Json.obj []])] false false true).2.1
      "Section: Untitled Section" = some (Json.str "") ∧
    "Section: Intro" ∉ (drop_constant_columns [[("Section: Intro", Json.str "x")]]
      false [sectionKeepPat]).2 := by
  constructor
  · have h := C4_section_separator_columns.1 [] [("sections", Json.arr [Json.obj []])]
      false false (Json.obj []) (by decide)
    exact h
  · exact (C4_section_separator_columns.2 [[("Section: Intro", Json.str "x")]] false
      "Section: Intro" ⟨"Intro".toList, rfl⟩).1

/-- Claim C5 counterexample: three questions titled `T` with no ids and
scalar responses 1, 2, 3 in one section yield dynamic columns
`{"T": 1, "T__dup": 3}` — the suffix is applied only once, so the third
question silently overwrites the second question's value 2, refuting
"no previously stored question's value is silently overwritten". -/
theorem C5_counterexample_dup_overwrite :
    (extract_row [] [("sections", Json.arr [Json.obj [("questions", Json.arr
        [Json.obj [("questionTitle", Json.str "T"), ("questionResponse", Json.int 1)],
         Json.obj [("questionTitle", Json.str "T"), ("questionResponse", Json.int 2)],
         Json.obj [("questionTitle", Json.str "T"), ("questionResponse", Json.int 3)]])]])]
      false false false).2.1 = [("T", Json.int 1), ("T__dup", Json.int 3)] ∧
    ∀ p ∈ (extract_row [] [("sections", Json.arr [Json.obj [("questions", Json.arr
        [Json.obj [("questionTitle", Json.str "T"), ("questionResponse", Json.int 1)],
         Json.obj [("questionTitle", Json.str "T"), ("questionResponse", Json.int 2)],
         Json.obj [("questionTitle", Json.str "T"), ("questionResponse", Json.int 3)]])]])]
      false false false).2.1, p.2 ≠ Json.int 2 :=
  ⟨by decide, by decide⟩

/-- Claim C5, amended: in `extract_row`'s per-question step
(`processQuestion`), a scalar response whose computed column name already
exists among the dynamic columns, with question-id suffixing disabled, is
stored under the name extended with `"__"` plus the sanitized question id
(or `"__dup"` when the question has no id), and no binding at any other
name changes — but if the extended name itself already exists its previous
value is overwritten (the suffix is applied only once). -/
theorem C5_scalar_collision_suffix_amended (ps : Bool) (secTitle : String) (st : QState)
    (qJ : Json) (col : String) (resp : Json)
    (hcol : col = build_header_name (pyStrip (strField (asDict qJ) "questionTitle"))
      (qidField (asDict qJ)) secTitle false ps)
    (hresp : resp = (getKey (asDict qJ) "questionResponse").getD Json.null)
    (hscalar : isContainer resp = false)
    (hdup : hasKey st.dynamic col = true) :
    (processQuestion false ps secTitle st qJ).dynamic
        = setKV st.dynamic (col ++ "__" ++ dupSuffix (qidField (asDict qJ))) resp ∧
    getKey (processQuestion false ps secTitle st qJ).dynamic
        (col ++ "__" ++ dupSuffix (qidField (asDict qJ))) = some resp ∧
    ∀ k, k ≠ col ++ "__" ++ dupSuffix (qidField (asDict qJ)) →
      getKey (processQuestion false ps secTitle st qJ).dynamic k
        = getKey st.dynamic k := by
  subst hcol
  subst hresp
  simp only [processQuestion]
  rw [if_neg (by simp [hscalar]), if_pos (by simp [hdup])]
  exact ⟨rfl, getKey_setKV_self _ _ _, fun k hk => getKey_setKV_ne _ _ _ hk _⟩

/-- Claim C5 witness: a second question titled `T` with scalar response 2,
arriving when `T` is already bound, is stored under `T__dup`. -/
theorem C5_scalar_collision_witness :
    getKey (processQuestion false false "" (QState.mk [("T", Json.int 1)] [])
      (Json.obj [("questionTitle", Json.str "T"),
        ("questionResponse", Json.int 2)])).dynamic "T__dup" = some (Json.int 2) := by
  have h := (C5_scalar_collision_suffix_amended false "" (QState.mk [("T", Json.int 1)] [])
    (Json.obj [("questionTitle", Json.str "T"), ("questionResponse", Json.int 2)])
    _ _ rfl rfl (by decide) (by decide)).2.1
  exact h

/-- Claim C6: `flatten` renders an all-scalar-or-null sequence as a single
column named `sanitize_col prefix` holding the elements joined with
`" | "` (null elements as the empty string), renders a sequence with any
mapping or sequence element as that single column holding the sequence's
JSON text, and flattening `[1,2,3]` under prefix `Q3` yields the single
column `Q3 = "1 | 2 | 3"`. -/
theorem C6_flatten_sequences :
    (∀ (pre : String) (xs : List Json), (∀ x ∈ xs, isContainer x = false) →
      flatten pre (Json.arr xs) = [(sanitize_col pre, Json.str (joinScalars xs))]) ∧
    (∀ (pre : String) (xs : List Json), (∃ x ∈ xs, isContainer x = true) →
      flatten pre (Json.arr xs) = [(sanitize_col pre, Json.str (dumps (Json.arr xs)))]) ∧
    flatten "Q3" (Json.arr [Json.int 1, Json.int 2, Json.int 3])
      = [("Q3", Json.str "1 | 2 | 3")] := by
  refine ⟨?_, ?_, by decide⟩
  · intro pre xs h
    simp only [flatten]
    have hcond : (xs.all fun x => !isContainer x) = true := by
      rw [List.all_eq_true]
      intro x hx
      simp [h x hx]
    rw [if_pos hcond]
  · intro pre xs h
    simp only [flatten]
    have hcond : ¬((xs.all fun x => !isContainer x) = true) := by
      intro hall
      rw [List.all_eq_true] at hall
      obtain ⟨x, hx, hc⟩ := h
      have h2 := hall x hx
      rw [hc] at h2
      exact absurd h2 (by decide)
    rw [if_neg hcond]

/-- Claim C6 witness: the all-scalar clause at `[1, 2, 3]` and the nested
clause at `[{}]`. -/
theorem C6_flatten_sequences_witness :
    flatten "Q3" (Json.arr [Json.int 1, Json.int 2, Json.int 3])
      = [("Q3", Json.str (joinScalars [Json.int 1, Json.int 2, Json.int 3]))] ∧
    flatten "N" (Json.arr [Json.obj []])
      = [("N", Json.str (dumps (Json.arr [Json.obj []])))] := by
  constructor
  · have h := C6_flatten_sequences.1 "Q3" [Json.int 1, Json.int 2, Json.int 3] (by decide)
    rw [h]
    decide
  · have h := C6_flatten_sequences.2.1 "N" [Json.obj []] ⟨Json.obj [], by decide, rfl⟩
    rw [h]
    decide

/-- Claim C7 counterexample: `{"applications": [5]}` is "a dict with an
applications list", yet `coerce_to_pairs` raises (the `AttributeError`
from `app.items()` on the non-dict element `5`) — refuting "raises an
error if and only if the document matches none of these shapes". -/
theorem C7_counterexample_attr_error :
    coerce_to_pairs (Json.obj [("applications", Json.arr [Json.int 5])])
      = Except.error CoerceErr.attrError ∧
    shapeAppsList (Json.obj [("applications", Json.arr [Json.int 5])]) = true :=
  ⟨rfl, rfl⟩

/-- Claim C7, amended: `coerce_to_pairs` raises its unrecognised-shape
`ValueError` exactly when the document matches none of the five recognized
shapes; documents that do match a shape can still fail with a different
error (`AttributeError`/`TypeError`) when inner elements have unexpected
types. -/
theorem C7_unrecognised_iff_no_shape (d : Json) :
    (coerce_to_pairs d = Except.error CoerceErr.unrecognised) ↔
      (shapeAppsList d || shapeAppsObj d || shapeSubsList d || shapeBareList d ||
        shapeSingleSub d) = false := by
  cases d with
  | null =>
    simp [coerce_to_pairs, shapeAppsList, shapeAppsObj, shapeSubsList, shapeBareList,
      shapeSingleSub]
  | bool b =>
    simp [coerce_to_pairs, shapeAppsList, shapeAppsObj, shapeSubsList, shapeBareList,
      shapeSingleSub]
  | int n =>
    simp [coerce_to_pairs, shapeAppsList, shapeAppsObj, shapeSubsList, shapeBareList,
      shapeSingleSub]
  | str s =>
    simp [coerce_to_pairs, shapeAppsList, shapeAppsObj, shapeSubsList, shapeBareList,
      shapeSingleSub]
  | arr xs =>
    simp [coerce_to_pairs, shapeAppsList, shapeAppsObj, shapeSubsList, shapeBareList,
      shapeSingleSub]
  | obj kvs =>
    cases happ : getKey kvs "applications" with
    | some j =>
      cases j with
      | arr apps =>
        have hne := appsList_ne_unrec apps
        simp [coerce_to_pairs, happ, shapeAppsList, hne]
      | obj a =>
        have hne := appPairs_ne_unrec (Json.obj a)
        simp [coerce_to_pairs, happ, shapeAppsObj, hne]
      | null =>
        exact coerce_unrec_rest kvs (by simp [shapeAppsList, happ])
          (by simp [shapeAppsObj, happ])
      | bool b =>
        exact coerce_unrec_rest kvs (by simp [shapeAppsList, happ])
          (by simp [shapeAppsObj, happ])
      | int n =>
        exact coerce_unrec_rest kvs (by simp [shapeAppsList, happ])
          (by simp [shapeAppsObj, happ])
      | str s =>
        exact coerce_unrec_rest kvs (by simp [shapeAppsList, happ])
          (by simp [shapeAppsObj, happ])
    | none =>
      exact coerce_unrec_rest kvs (by simp [shapeAppsList, happ])
        (by simp [shapeAppsObj, happ])

/-- Claim C8: `sanitize_col` is idempotent — sanitizing twice equals
sanitizing once, for every string — and deterministic: identical input
yields identical output. -/
theorem C8_sanitize_idempotent_deterministic :
    (∀ s : String, sanitize_col (sanitize_col s) = sanitize_col s) ∧
    (∀ x y : String, x = y → sanitize_col x = sanitize_col y) := by
  constructor
  · intro s
    rcases sanitize_out s with h | ⟨u, h, hnd, hch, hne⟩
    · rw [h]
      decide
    · rw [h]
      have htc : ∀ c ∈ stripList (fun c => c == '_') u, isAlnumChar c = true ∨ c = '_' :=
        fun c hc => hch c (stripList_subset hc)
      have hnd2 : noDouble (stripList (fun c => c == '_') u) :=
        noDouble_of_prefix (stripList_front u)
          (noDouble_of_suffix (List.dropWhile_suffix _) hnd)
      rw [sanitize_fixes_good _ htc (stripList_idem _ u) hnd2, hne]
      simp
  · intro x y h
    rw [h]

/-- Claim C8 witness: idempotence at `"Q 1 (a)"` and determinism at
`"A"`. -/
theorem C8_sanitize_witness :
    sanitize_col (sanitize_col "Q 1 (a)") = sanitize_col "Q 1 (a)" ∧
    sanitize_col "A" = sanitize_col "A" :=
  ⟨C8_sanitize_idempotent_deterministic.1 "Q 1 (a)",
   C8_sanitize_idempotent_deterministic.2 "A" "A" rfl⟩

/-- Claim C9: `drop_constant_columns` draws its candidate columns from the
first row only — a column name absent from the first row is never reported
as removed and every row's value at that column is preserved, even if its
values are constant wherever it occurs. -/
theorem C9_first_row_candidates (r0 : Dict) (rest : List Dict) (ie : Bool)
    (kp : List (String → Bool)) (c : String) (hc : c ∉ r0.map (fun p => p.1)) :
    c ∉ (drop_constant_columns (r0 :: rest) ie kp).2 ∧
    (drop_constant_columns (r0 :: rest) ie kp).1.map (fun r => getKey r c)
      = (r0 :: rest).map (fun r => getKey r c) := by
  have h1 : c ∉ (drop_constant_columns (r0 :: rest) ie kp).2 := by
    intro h
    exact hc ((dcc_removed_iff r0 rest ie kp c).mp h).1
  exact ⟨h1, dcc_values_preserved _ ie kp c h1⟩

/-- Claim C9 witness: `"b"` occurs only in the second row with a constant
(blank) value set, and is neither removed nor altered. -/
theorem C9_first_row_witness :
    "b" ∉ (drop_constant_columns [[("a", Json.str "1")],
      [("a", Json.str "2"), ("b", Json.str "")]] false []).2 :=
  (C9_first_row_candidates [("a", Json.str "1")]
    [[("a", Json.str "2"), ("b", Json.str "")]] false [] "b" (by decide)).1

/-- Claim C10: the shape dispatch of `coerce_to_pairs` is first-match: a
dict whose `applications` key holds a list is handled entirely by the
applications-list branch, so any top-level `submissions` list in the same
document is ignored and contributes no pairs. -/
theorem C10_applications_list_first_match (kvs : Dict) (apps : List Json)
    (h : getKey kvs "applications" = some (Json.arr apps)) :
    coerce_to_pairs (Json.obj kvs) = applicationsListPairs apps := by
  simp [coerce_to_pairs, h]

/-- Claim C10 witness: a document with an empty applications list and a
non-empty top-level submissions list yields no pairs. -/
theorem C10_applications_list_witness :
    coerce_to_pairs (Json.obj [("applications", Json.arr []),
      ("submissions", Json.arr [Json.obj [("submissionId", Json.str "s1")]])])
      = Except.ok [] := by
  rw [C10_applications_list_first_match _ [] (by decide)]
  rfl
